import Mathlib

/-!
Verification of the pynntp NNTP client library core against its
natural-language specification.

Python semantics are shallowly embedded:
* `bytes` values are `List Nat` with every element below 256,
* `str` values are `List Char`,
* fallible code returns explicit outcome types,
* generators become pure functions from their (finite) input streams to the
  list of values they yield, together with a termination flag.

Every definition in the `Pynntp` namespace is translated from the source of
the repository (`nntp/nntp.py`, `nntp/yenc.py`, `nntp/utils.py`,
`nntp/fifo.py`, `nntp/headerdict.py`); definitions in the `PynntpSpec`
namespace are written from the specification's words, for comparison.

The file is organised as: all definitions first, then all theorems.
-/

namespace Pynntp

/-- A byte, modelled as a natural number (always < 256 where it matters). -/
abbrev Byte := Nat

/-- A byte string, modelled as a list of bytes. -/
abbrev Bytes := List Byte

/-- The two-byte line terminator `b"\r\n"`. -/
def crlf : Bytes := [13, 10]

/-- The three-byte multi-line response terminator `b".\r\n"`. -/
def dotCRLF : Bytes := [46, 13, 10]

/-- `bs.startswith(pre)` on Python bytes. -/
def startsWithBytes (bs pre : Bytes) : Bool :=
  decide (pre <+: bs)

/-- `bytes.startswith(b".")`, i.e. the first byte is an ASCII dot. -/
def startsWithDot (bs : Bytes) : Bool :=
  bs.head? = some 46

/--
One step of the dot-stuffing loop shared by `BaseNNTPClient._info_plain` and
`BaseNNTPClient._info_gzip` (nntp/nntp.py lines 278-283 and 327-333):

```
if line == b".\r\n":
    break
if line.startswith(b"."):
    yield line[1:]
yield line
```

Note the absence of an `else`/`continue`: a dot-stuffed line is yielded twice,
once with the leading dot stripped and once verbatim.
-/
def dotYields (line : Bytes) : List Bytes :=
  if startsWithDot line then [line.drop 1, line] else [line]

/--
Processing of a list of complete lines by the shared dot-stuffing loop.
Returns the yielded lines and `true` when the terminating line `b".\r\n"`
was found (in which case the remaining input lines are not consumed).
-/
def dotProcess : List Bytes → List Bytes × Bool
  | [] => ([], false)
  | l :: ls =>
    if l = dotCRLF then ([], true)
    else
      let rest := dotProcess ls
      (dotYields l ++ rest.1, rest.2)

/--
`BaseNNTPClient._info_plain` (nntp/nntp.py lines 260-285) as a function from
the list of raw server lines to the yielded lines, paired with `true` when
the generator terminated at the `b".\r\n"` sentinel (clearing the
`_generating` flag) and `false` when it consumed the whole stream without
ever seeing the sentinel.
-/
def info_plain (raw : List Bytes) : List Bytes × Bool :=
  dotProcess raw

/--
Splitting off the first complete `\r\n`-terminated line of a byte buffer, as
done by `Fifo.readline` (nntp/fifo.py lines 85-94): the returned line
includes the terminator; `none` when the buffer holds no complete line.
-/
def splitCRLF : Bytes → Option (Bytes × Bytes)
  | [] => none
  | b :: rest =>
    if b = 13 ∧ rest.head? = some 10 then
      some ([13, 10], rest.tail)
    else
      (splitCRLF rest).map (fun p => (b :: p.1, p.2))

/--
Fuel-driven worker for `fifoLines`; the fuel only serves structural
termination and is irrelevant whenever it is at least the buffer length.
-/
def fifoLinesGo : Nat → Bytes → List Bytes × Bytes
  | 0, bs => ([], bs)
  | fuel + 1, bs =>
    match splitCRLF bs with
    | none => ([], bs)
    | some (l, r) =>
      let rest := fifoLinesGo fuel r
      (l :: rest.1, rest.2)

/--
Draining all complete lines from a byte fifo, as done by iterating a
`BytesFifo` (nntp/fifo.py lines 47-54): returns the complete
`\r\n`-terminated lines in order and the unterminated leftover bytes.
-/
def fifoLines (bs : Bytes) : List Bytes × Bytes :=
  fifoLinesGo bs.length bs

/--
`BaseNNTPClient._info_gzip` (nntp/nntp.py lines 287-335), abstracted over
the gzip decompressor: the input is the per-chunk output of the
decompressor, each chunk giving the decompressed bytes (`data`) and the raw
bytes past the end of the gzip stream (`unused_data`). Each iteration pulls
one chunk, appends `data` then `unused_data` to the fifo, then drains and
processes complete lines with the shared dot-stuffing loop until the
`b".\r\n"` sentinel. Returns the yielded lines and whether the sentinel was
reached; an exhausted chunk list without sentinel corresponds to the code
blocking on (or failing) the next socket read.
-/
def info_gzip_run : List (Bytes × Bytes) → Bytes → List Bytes × Bool
  | [], _fifo => ([], false)
  | (d, u) :: rest, fifo =>
    let drained := fifoLines (fifo ++ (d ++ u))
    let step := dotProcess drained.1
    if step.2 then (step.1, true)
    else
      let cont := info_gzip_run rest drained.2
      (step.1 ++ cont.1, cont.2)

/-- `_info_gzip` started with a fresh (empty) fifo. -/
def info_gzip (chunks : List (Bytes × Bytes)) : List Bytes × Bool :=
  info_gzip_run chunks []

/-- The total byte stream surfaced by the decompressor: decompressed data
and trailing raw (`unused_data`) bytes, in arrival order. -/
def chunksBytes : List (Bytes × Bytes) → Bytes
  | [] => []
  | (d, u) :: rest => d ++ (u ++ chunksBytes rest)

/-- Reference line-sequence semantics: split the whole surfaced byte stream
into complete lines and run the dot-stuffing loop once. -/
def gzipStreamLines (bs : Bytes) : List Bytes × Bool :=
  dotProcess (fifoLines bs).1

/-- One bit of the CRC-32 feedback shift register (IEEE polynomial in
reflected form, constant 0xEDB88320), as in zlib's crc32. -/
def crcBitStep (v : Nat) : Nat :=
  if v % 2 = 1 then (v / 2) ^^^ 0xEDB88320 else v / 2

/-- Iterate the bit step. -/
def crcIter : Nat → Nat → Nat
  | 0, v => v
  | n + 1, v => crcIter n (crcBitStep v)

/-- Absorb one byte into the (pre-inverted) CRC-32 register. -/
def crcByte (v b : Nat) : Nat :=
  crcIter 8 (v ^^^ (b % 256))

/-- `zlib.crc32(data, value)`: running CRC-32 with the zlib pre/post
inversion convention. -/
def crc32 (data : Bytes) (value : Nat) : Nat :=
  (data.foldl crcByte (value ^^^ 0xFFFFFFFF)) ^^^ 0xFFFFFFFF

/-- `(z) & 0xFF` on a possibly negative Python integer. -/
def emod256 (z : Int) : Nat := (z % 256).toNat

/-- The state of a `YEnc` decoder instance (nntp/yenc.py lines 47-49):
`self.crc32` and `self._escape` (an int used as a flag, 0 or 1). -/
structure YEncState where
  crc32 : Nat
  escape : Nat
deriving DecidableEq

/-- A freshly constructed `YEnc()`. -/
def YEncState.init : YEncState := ⟨0, 0⟩

/--
The per-byte loop of `YEnc.decode` (nntp/yenc.py lines 52-64), threading
the `self._escape` flag; returns the final flag value and the decoded
output bytes in order:

```
if self._escape:
    b = (b - 106) & 0xFF
    self._escape = 0
elif b == 0x3D:
    self._escape = 1
    continue
elif b in {0x0D, 0x0A}:
    continue
else:
    b = (b - 42) & 0xFF
data.append(b)
```
-/
def yencDecodeGo : Nat → Bytes → Nat × Bytes
  | e, [] => (e, [])
  | e, b :: rest =>
    if e ≠ 0 then
      let out := yencDecodeGo 0 rest
      (out.1, emod256 ((b : Int) - 106) :: out.2)
    else if b = 0x3D then yencDecodeGo 1 rest
    else if b = 0x0D ∨ b = 0x0A then yencDecodeGo 0 rest
    else
      let out := yencDecodeGo 0 rest
      (out.1, emod256 ((b : Int) - 42) :: out.2)

/-- `YEnc.decode` (nntp/yenc.py lines 51-67): decode a buffer, update the
running crc32 with `zlib.crc32(decoded, self.crc32)`, and return the new
state together with the decoded bytes. -/
def YEnc.decode (st : YEncState) (buf : Bytes) : YEncState × Bytes :=
  let r := yencDecodeGo st.escape buf
  (⟨crc32 r.2 st.crc32, r.1⟩, r.2)

/-- A sequence of `decode` calls on one decoder instance, returning the
final state and the concatenation of all decoded output. -/
def YEnc.decodeMany (st : YEncState) : List Bytes → YEncState × Bytes
  | [] => (st, [])
  | buf :: bufs =>
    let r := YEnc.decode st buf
    let rest := YEnc.decodeMany r.1 bufs
    (rest.1, r.2 ++ rest.2)

/-- The six ASCII whitespace bytes of Python `bytes` methods
(`b" \t\n\r\x0b\x0c"`). -/
def isPyWS (b : Byte) : Bool := b = 32 ∨ b = 9 ∨ b = 10 ∨ b = 13 ∨ b = 11 ∨ b = 12

/-- `bytes.rstrip()` with no argument: strip trailing ASCII whitespace. -/
def rstripBytes (bs : Bytes) : Bytes :=
  (bs.reverse.dropWhile isPyWS).reverse

/-- `bytes.strip()` with no argument. -/
def stripBytes (bs : Bytes) : Bytes :=
  rstripBytes (bs.dropWhile isPyWS)

/-- `bytes.split(None, 1)`: split on the first run of whitespace, skipping
leading whitespace; at most two fields, the second being the remainder with
its own leading whitespace removed. Yields `[]` on whitespace-only input. -/
def splitWS1 (bs : Bytes) : List Bytes :=
  let t := bs.dropWhile isPyWS
  if t = [] then []
  else
    let tok := t.takeWhile (fun b => ¬ isPyWS b)
    let rest := (t.dropWhile (fun b => ¬ isPyWS b)).dropWhile isPyWS
    if rest = [] then [tok] else [tok, rest]

/-- ASCII decimal digit. -/
def isDigitByte (b : Byte) : Bool := 48 ≤ b ∧ b ≤ 57

/-- Continuation of a Python integer-literal digit run: digits, with single
underscores allowed only between digits. -/
def digitsTail : Bytes → Bool
  | [] => true
  | b :: rest =>
    if isDigitByte b then digitsTail rest
    else if b = 95 then
      (match rest with
       | [] => false
       | c :: _ => isDigitByte c) && digitsTail rest
    else false

/-- A valid Python integer digit run: nonempty, starts with a digit. -/
def digitsOK : Bytes → Bool
  | [] => false
  | b :: rest => isDigitByte b && digitsTail rest

/-- Numeric value of a digit run, ignoring underscores. -/
def digitsVal (bs : Bytes) : Nat :=
  bs.foldl (fun acc b => if b = 95 then acc else acc * 10 + (b - 48)) 0

/-- Python `int(bytes_token)`: optional surrounding ASCII whitespace, an
optional sign, then a digit run with optional single underscores between
digits; `none` models the `ValueError`. -/
def pyIntParse (bs : Bytes) : Option Int :=
  let t := stripBytes bs
  match t with
  | [] => none
  | c :: rest =>
    if c = 43 then
      if digitsOK rest then some (digitsVal rest : Int) else none
    else if c = 45 then
      if digitsOK rest then some (-(digitsVal rest : Int)) else none
    else
      if digitsOK t then some (digitsVal t : Int) else none

/-- The possible outcomes of `BaseNNTPClient.status`. -/
inductive StatusResult where
  | ok (code : Int) (message : Bytes)
  | tempErr (code : Int) (message : Bytes)
  | permErr (code : Int) (message : Bytes)
  | protoErr
  | idxErr
deriving DecidableEq

/--
`BaseNNTPClient.status` (nntp/nntp.py lines 220-258) applied to the one raw
line read from the server. The status message is kept as raw bytes (the
source decodes it with UTF-8/surrogateescape, a lossless bijection).
`idxErr` models the uncaught `IndexError` from `parts[0]` when the stripped
line has no fields (only `ValueError` is caught and turned into
`NNTPProtocolError`).
-/
def status (line : Bytes) : StatusResult :=
  let l := rstripBytes line
  let parts := splitWS1 l
  match parts.head? with
  | none => .idxErr
  | some p0 =>
    match pyIntParse p0 with
    | none => .protoErr
    | some code =>
      if code < 100 ∨ code ≥ 600 then .protoErr
      else
        let message := ((parts.drop 1).head?).getD []
        if 400 ≤ code ∧ code ≤ 499 then .tempErr code message
        else if 500 ≤ code ∧ code ≤ 599 then .permErr code message
        else .ok code message

/-- A Python `str`, modelled as a list of characters. -/
abbrev PyStr := List Char

/-- Whitespace characters stripped by Python `str.strip`/`str.rstrip`
(restricted to the ASCII whitespace set, which is all the header parser
meets). -/
def isPyWSChar (c : Char) : Bool :=
  c = ' ' ∨ c = '\t' ∨ c = '\n' ∨ c = '\r' ∨ c = '\x0b' ∨ c = '\x0c'

/-- `str.rstrip()`. -/
def rstripStr (s : PyStr) : PyStr :=
  (s.reverse.dropWhile isPyWSChar).reverse

/-- `str.strip()`. -/
def stripStr (s : PyStr) : PyStr :=
  rstripStr (s.dropWhile isPyWSChar)

/-- `s.split(sep, 1)` on one character separator: the part before the first
occurrence and the remainder; `none` when the separator does not occur
(which makes a 2-tuple unpacking raise `ValueError`). -/
def splitOnce (sep : Char) : PyStr → Option (PyStr × PyStr)
  | [] => none
  | c :: rest =>
    if c = sep then some ([], rest)
    else (splitOnce sep rest).map (fun p => (c :: p.1, p.2))

/-- The outcome of `_parse_header` (nntp/utils.py lines 109-130). -/
inductive HeaderLine where
  | ended
  | cont (s : PyStr)
  | field (name value : PyStr)
  | err
deriving DecidableEq

/-- `_parse_header` (nntp/utils.py lines 109-130): `None` at the end of
headers (empty line or bare `"\r\n"`); the rstripped line for a
continuation (first character space or tab); otherwise split on the first
`:` into stripped name and value (`err` models the `ValueError` from
unpacking when there is no colon). -/
def parse_header (line : PyStr) : HeaderLine :=
  if line = [] ∨ line = ['\r', '\n'] then .ended
  else if line.head? = some ' ' ∨ line.head? = some '\t' then
    .cont (rstripStr line)
  else
    match splitOnce ':' line with
    | none => .err
    | some (n, v) => .field (stripStr n) (stripStr v)

/-- The outcome of `parse_headers`: the ordered header pairs, or one of its
two `ValueError` modes. -/
inductive HeadersResult where
  | ok (hdrs : List (PyStr × PyStr))
  | contFirst
  | badLine
deriving DecidableEq

/-- `hdrs[-1] = hdrs[-1][0], hdrs[-1][1] + s`: extend the value of the last
collected header. -/
def updLast (hdrs : List (PyStr × PyStr)) (s : PyStr) : List (PyStr × PyStr) :=
  match hdrs.getLast? with
  | none => hdrs
  | some (n, v) => hdrs.dropLast ++ [(n, v ++ s)]

/-- The loop of `parse_headers` (nntp/utils.py lines 150-160): a falsy
parse result (`None`, or a continuation that rstrips to the empty string)
breaks; a continuation with no previous header raises; otherwise the
continuation extends the last value or the pair is appended. -/
def parse_headers_go (hdrs : List (PyStr × PyStr)) :
    List PyStr → HeadersResult
  | [] => .ok hdrs
  | line :: rest =>
    match parse_header line with
    | .ended => .ok hdrs
    | .cont s =>
      if s = [] then .ok hdrs
      else
        match hdrs.getLast? with
        | none => .contFirst
        | some _ => parse_headers_go (updLast hdrs s) rest
    | .field n v => parse_headers_go (hdrs ++ [(n, v)]) rest
    | .err => .badLine

/-- `parse_headers` (nntp/utils.py lines 133-161) on an iterable of lines,
before the `HeaderDict` is built. -/
def parse_headers (lines : List PyStr) : HeadersResult :=
  parse_headers_go [] lines

/-- `str.casefold()` as used by `HeaderName` (nntp/headerdict.py lines
28-33), restricted to the ASCII lowering which is all header names use. -/
def pyCasefold (s : PyStr) : PyStr := s.map Char.toLower

/-- One `__setitem__` on the `OrderedDict[HeaderName, str]` backing a
`HeaderDict`: overwrite the value in place when a casefold-equal key
exists (the stored key object is kept), else append. -/
def dictInsert : List (PyStr × PyStr) → PyStr → PyStr → List (PyStr × PyStr)
  | [], k, v => [(k, v)]
  | (k0, v0) :: rest, k, v =>
    if pyCasefold k0 = pyCasefold k then (k0, v) :: rest
    else (k0, v0) :: dictInsert rest k v

/-- `HeaderDict(pairs)` (nntp/headerdict.py lines 37-56): sequential
insertion of the pairs. -/
def headerDict (pairs : List (PyStr × PyStr)) : List (PyStr × PyStr) :=
  pairs.foldl (fun m p => dictInsert m p.1 p.2) []

/-- `HeaderDict.__getitem__`-style lookup: the value stored under a
casefold-equal key. -/
def dictGet (m : List (PyStr × PyStr)) (k : PyStr) : Option PyStr :=
  (m.find? (fun p => pyCasefold p.1 = pyCasefold k)).map Prod.snd

/-- `line.startswith(b"=y")`. -/
def startsWithEqY (bs : Bytes) : Bool :=
  startsWithBytes bs [61, 121]

/--
The loop of `NNTPClient._body` (nntp/nntp.py lines 1058-1080):

```
for line in self._info(code, message):
    if decode is None:
        if line.startswith(b"=y"):
            decode = True
            del body[:]
        elif line != b"\r\n":
            decode = False
    if decode:
        if line.startswith(b"=y"):
            continue
        line = decoder.decode(line)
    body.append(line)
return b"".join(body)
```

threading the yEnc decoder state, the tri-state `decode` flag, and the
accumulated `body` list.
-/
def body_go : YEncState → Option Bool → List Bytes → List Bytes → Bytes
  | _, _, acc, [] => acc.flatten
  | st, none, acc, l :: ls =>
    if startsWithEqY l then body_go st (some true) [] ls
    else if l ≠ crlf then body_go st (some false) (acc ++ [l]) ls
    else body_go st none (acc ++ [l]) ls
  | st, some true, acc, l :: ls =>
    if startsWithEqY l then body_go st (some true) acc ls
    else
      body_go (YEnc.decode st l).1 (some true)
        (acc ++ [(YEnc.decode st l).2]) ls
  | st, some false, acc, l :: ls => body_go st (some false) (acc ++ [l]) ls

/-- `NNTPClient._body` on the body's line sequence, with the caller's
`decode` argument. -/
def body_ (lines : List Bytes) (decode : Option Bool) : Bytes :=
  body_go YEncState.init decode [] lines

/-- Python's `in` on strings: `pat in s`. -/
def containsSub : PyStr → PyStr → Bool
  | s, pat =>
    if pat.isPrefixOf s then true
    else
      match s with
      | [] => false
      | _ :: rest => containsSub rest pat

/-- The decode-defaulting step of `NNTPClient.article` (nntp/nntp.py line
1128): `if decode is None and "yEnc" in headers.get("subject", ""):
decode = True`. -/
def articleDecodeDefault (subject : PyStr) (decode : Option Bool) :
    Option Bool :=
  if decode = none ∧ containsSub subject "yEnc".toList then some true
  else decode

/-- `bs.endswith(suf)` on Python bytes. -/
def endsWithBytes (bs suf : Bytes) : Bool :=
  decide (suf <:+ bs)

/-- Iterating a `BytesIO`: split after every `\n` (0x0A), keeping the
newline on each line; a trailing segment without a newline is kept. -/
def splitLinesNL (bs : Bytes) : List Bytes :=
  bs.foldr
    (fun b acc =>
      if b = 10 then [10] :: acc
      else
        match acc with
        | [] => [[b]]
        | l :: ls => (b :: l) :: ls)
    []

/-- `if line.startswith(b"."): line = b"." + line` (nntp/nntp.py lines
1465-1466). -/
def dotStuff (l : Bytes) : Bytes :=
  if startsWithDot l then 46 :: l else l

/-- The trailing-newline normalization of `post` (nntp/nntp.py lines
1467-1470): drop a trailing `\r\n` or `\n`. -/
def chopEOL (l : Bytes) : Bytes :=
  if endsWithBytes l [13, 10] then l.dropLast.dropLast
  else if endsWithBytes l [10] then l.dropLast
  else l

/-- `any(c in line for c in b"\0\r")` (nntp/nntp.py line 1471). -/
def hasIllegal (l : Bytes) : Bool :=
  l.contains 0 || l.contains 13

/-- The body-sending loop of `post` (nntp/nntp.py lines 1463-1474): each
line is dot-stuffed, its trailing newline normalized, and sent followed by
`\r\n` — unless it contains an illegal byte, in which case nothing further
is sent and the illegal flag is set. Returns the sent lines and the flag. -/
def postLines : List Bytes → List Bytes × Bool
  | [] => ([], false)
  | l :: ls =>
    let l' := chopEOL (dotStuff l)
    if hasIllegal l' then ([], true)
    else
      let rest := postLines ls
      ((l' ++ crlf) :: rest.1, rest.2)

/-- The possible outcomes of `post` after the 340 exchange. -/
inductive PostResult where
  | posted (msgid : Bytes)
  | postedTrue
  | dataErr
  | replyErr (code : Int) (message : Bytes)
  | tempErr (code : Int) (message : Bytes)
  | permErr (code : Int) (message : Bytes)
  | protoErr
  | idxErr
deriving DecidableEq

/--
`NNTPClient.post` (nntp/nntp.py lines 1446-1493) from after the `340`
status and the header block: sends the body lines (truncating at the first
line holding `\0` or `\r` after normalization), always sends the `b".\r\n"`
terminator, then reads the final status line — whose own 4xx/5xx/malformed
errors fire before the illegal-characters check — and only then raises
`DataError` when truncation happened, `ReplyError` for a code other than
240, and otherwise extracts a `<message-id>` from the status message.
Returns the outcome and the byte strings written for the body.
-/
def post_after340 (body : Bytes) (finalLine : Bytes) :
    PostResult × List Bytes :=
  let sent := postLines (splitLinesNL body)
  let writes := sent.1 ++ [dotCRLF]
  let res :=
    match status finalLine with
    | .tempErr c m => PostResult.tempErr c m
    | .permErr c m => PostResult.permErr c m
    | .protoErr => PostResult.protoErr
    | .idxErr => PostResult.idxErr
    | .ok c m =>
      if sent.2 then PostResult.dataErr
      else if c ≠ 240 then PostResult.replyErr c m
      else
        match splitWS1 m with
        | [] => PostResult.idxErr
        | msgid :: _ =>
          if startsWithBytes msgid [60] ∧ endsWithBytes msgid [62] then
            PostResult.posted msgid
          else PostResult.postedTrue
  (res, writes)

/-- `b"=ybegin"`. -/
def ybeginBytes : Bytes := [61, 121, 98, 101, 103, 105, 110]

/-- `b"=yend"`. -/
def yendBytes : Bytes := [61, 121, 101, 110, 100]

/-- ASCII hex digit (either case), the class `[0-9a-fA-F]`. -/
def isHexDigit (b : Byte) : Bool :=
  (48 ≤ b ∧ b ≤ 57) ∨ (97 ≤ b ∧ b ≤ 102) ∨ (65 ≤ b ∧ b ≤ 70)

/-- Value of one hex digit byte. -/
def hexVal (b : Byte) : Nat :=
  if b ≤ 57 then b - 48 else if b ≤ 70 then b - 55 else b - 87

/-- Big-endian value of a hex digit string — `struct.unpack(">I",
binascii.unhexlify(h))[0]` for an 8-digit capture. -/
def hex8Val (bs : Bytes) : Nat :=
  bs.foldl (fun a b => a * 16 + hexVal b) 0

/-- Matching `crc(?:32)?=([0-9a-fA-F]{8})` at the byte following a
whitespace run, with the regex's backtracking on the optional `32` (after
`crc32` the next byte is `3`, never `=`, so the alternatives are
disjoint). -/
def crcAfterWS (bs : Bytes) : Option Nat :=
  match bs with
  | 99 :: 114 :: 99 :: 51 :: 50 :: 61 :: r =>
    if 8 ≤ r.length ∧ (r.take 8).all isHexDigit then some (hex8Val (r.take 8))
    else none
  | 99 :: 114 :: 99 :: 61 :: r =>
    if 8 ≤ r.length ∧ (r.take 8).all isHexDigit then some (hex8Val (r.take 8))
    else none
  | _ => none

/-- `trailer_crc32` (nntp/yenc.py lines 32-38): leftmost search for the
case-sensitive-keyword pattern `\s+crc(?:32)?=([0-9a-fA-F]{8})`; the `\s+`
is effectively the whole whitespace run before `crc` because no whitespace
byte can start `crc`. -/
def trailer_crc32 : Bytes → Option Nat
  | [] => none
  | b :: rest =>
    if isPyWS b then
      match crcAfterWS (rest.dropWhile isPyWS) with
      | some v => some v
      | none => trailer_crc32 rest
    else trailer_crc32 rest

/-- The outcome of `_info_yenczlib`, including each of its Python failure
modes. -/
inductive YZResult where
  | socketErr
  | runtimeErr
  | badHeader
  | decompFailed
  | missingTrailer
  | badTrailer
  | badCRC
  | ok (lines : List Bytes)
deriving DecidableEq

/--
The body loop of `_info_yenczlib` (nntp/nntp.py lines 369-382), abstracted
over the raw-deflate decompressor `step` (a `zlib.error` is `none`):

```
for line in self._info_plain():
    if line.startswith(b"=yend"):
        trailer = line
        continue
    data = decoder.decode(line)
    try:
        data = inflate.decompress(data)
    except zlib.error:
        raise NNTPDataError("Decompression failed")
    if not data:
        continue
    buf.write(data)
    yield from buf
```

Arguments: the yielded plain-info lines, inflate state, decoder state,
stored trailer, fifo leftover, lines yielded so far.
-/
def yz_loop {σ : Type} (step : σ → Bytes → Option (σ × Bytes)) :
    List Bytes → σ → YEncState → Bytes → Bytes → List Bytes →
      Option (σ × YEncState × Bytes × Bytes × List Bytes)
  | [], s, d, t, fifo, out => some (s, d, t, fifo, out)
  | l :: ls, s, d, t, fifo, out =>
    if startsWithBytes l yendBytes then yz_loop step ls s d l fifo out
    else
      match step s (YEnc.decode d l).2 with
      | none => none
      | some (s', data) =>
        if data = [] then yz_loop step ls s' (YEnc.decode d l).1 t fifo out
        else
          yz_loop step ls s' (YEnc.decode d l).1 t
            (fifoLines (fifo ++ data)).2
            (out ++ (fifoLines (fifo ++ data)).1)

/-- The last line starting `b"=yend"`, with a default: models repeated
`trailer = line` assignments. -/
def lastYend : List Bytes → Bytes → Bytes
  | [], t => t
  | l :: ls, t =>
    if startsWithBytes l yendBytes then lastYend ls l else lastYend ls t

/--
`BaseNNTPClient._info_yenczlib` (nntp/nntp.py lines 337-395), abstracted
over the raw-deflate decompressor. The header is obtained with
`next(self._info_plain())`: an empty raw stream means a failed socket
read; a first line equal to `b".\r\n"` makes that `next()` raise
`StopIteration`, which PEP 479 turns into a `RuntimeError`; a dot-stuffed
first line is yielded stripped first, so the header check sees the
unstuffed line (the abandoned generator is never resumed). The body is
then read through a second `_info_plain` generator; if its sentinel is
never reached the final socket read fails after all available lines were
processed.
-/
def info_yenczlib {σ : Type} (step : σ → Bytes → Option (σ × Bytes))
    (s0 : σ) (raw : List Bytes) : YZResult :=
  match raw with
  | [] => .socketErr
  | r0 :: rest =>
    if r0 = dotCRLF then .runtimeErr
    else
      let header := if startsWithDot r0 then r0.drop 1 else r0
      if ¬ startsWithBytes header ybeginBytes then .badHeader
      else
        match yz_loop step (info_plain rest).1 s0 YEncState.init [] [] [] with
        | none => .decompFailed
        | some (_, d, t, _, out) =>
          if ¬ (info_plain rest).2 then .socketErr
          else if t = [] then .missingTrailer
          else
            match trailer_crc32 t with
            | none => .badTrailer
            | some c => if c ≠ d.crc32 then .badCRC else .ok out

/-- What a call to `BaseNNTPClient.command` does from the caller's view:
return a pair, or raise one of the library's exceptions. -/
inductive CmdResult where
  | ok (code : Int) (message : Bytes)
  | tempRaise (code : Int) (message : Bytes)
  | permRaise (code : Int) (message : Bytes)
  | protoRaise
  | idxRaise
  | replyRaise (code : Int) (message : Bytes)
  | syncRaise
  | socketRaise
deriving DecidableEq

/-- The command line written by `command` (nntp/nntp.py line 459):
`f"{verb} {args}\r\n" if args else f"{verb}\r\n"` — note that `None` and
the empty string are both falsy. -/
def cmdLine (verb : PyStr) (args : Option PyStr) : PyStr :=
  if args.getD [] = [] then verb ++ ['\r', '\n']
  else verb ++ [' '] ++ args.getD [] ++ ['\r', '\n']

/-- `"AUTHINFO USER"`. -/
def authUserVerb : PyStr := "AUTHINFO USER".toList

/-- `"AUTHINFO PASS"`. -/
def authPassVerb : PyStr := "AUTHINFO PASS".toList

/--
`BaseNNTPClient.command` (nntp/nntp.py lines 432-475) against a script of
raw status lines the server will send, in order. Returns the caller-visible
outcome, the unconsumed script, and the command lines written. The fuel
bounds the recursion depth (each nested `command` call uses one unit); with
fuel larger than the chain of nested calls it never runs out. An exhausted
script models a failed socket read inside `status()` (after the command was
written). The `gen` flag is `self._generating`, checked before anything is
sent; `command` itself never modifies it.
-/
def commandF (username password : PyStr) :
    Nat → Bool → List Bytes → PyStr → Option PyStr →
      CmdResult × List Bytes × List PyStr
  | 0, _, s, _, _ => (.socketRaise, s, [])
  | fuel + 1, gen, s, verb, args =>
    if gen then (.syncRaise, s, [])
    else
      let w := cmdLine verb args
      match s with
      | [] => (.socketRaise, [], [w])
      | r :: rest =>
        match status r with
        | .idxErr => (.idxRaise, rest, [w])
        | .protoErr => (.protoRaise, rest, [w])
        | .permErr c m => (.permRaise c m, rest, [w])
        | .ok c m => (.ok c m, rest, [w])
        | .tempErr c m =>
          if c ≠ 480 then (.tempRaise c m, rest, [w])
          else
            match commandF username password fuel false rest
                authUserVerb (some username) with
            | (CmdResult.ok c1 m1, s1, w1) =>
              if c1 = 381 then
                match commandF username password fuel false s1
                    authPassVerb (some password) with
                | (CmdResult.ok c2 m2, s2, w2) =>
                  if c2 ≠ 281 then
                    (.replyRaise c2 m2, s2, w :: (w1 ++ w2))
                  else
                    let r3 := commandF username password fuel false s2 verb args
                    (r3.1, r3.2.1, w :: (w1 ++ w2 ++ r3.2.2))
                | (e2, s2, w2) => (e2, s2, w :: (w1 ++ w2))
              else if c1 ≠ 281 then (.replyRaise c1 m1, s1, w :: w1)
              else
                let r3 := commandF username password fuel false s1 verb args
                (r3.1, r3.2.1, w :: (w1 ++ r3.2.2))
            | (e1, s1, w1) => (e1, s1, w :: w1)

/--
The suspended state of one `_info_plain` generator: the queued second
(verbatim) copy of a dot-stuffed line, the raw lines not yet consumed,
whether the body has started executing (the first `next()`), and whether
it has finished at the sentinel.
-/
structure PlainReader where
  pending : Option Bytes
  remaining : List Bytes
  started : Bool
  done : Bool
deriving DecidableEq

/-- The connection state relevant to the sync discipline: the
`self._generating` flag, the current response reader, and the command
lines written to the transport. -/
structure Conn where
  generating : Bool
  reader : Option PlainReader
  writes : List PyStr
deriving DecidableEq

/-- A fresh connection. -/
def Conn.init : Conn := ⟨false, none, []⟩

/--
One `next()` on an `_info_plain` generator (nntp/nntp.py lines 260-285):
the first advance runs `self._generating = True` before anything is
yielded; a queued duplicate of a dot-stuffed line is yielded without
touching the flag; the sentinel line sets `self._generating = False` and
ends the generator (`none` yielded); a dot-stuffed line yields its
stripped copy and queues the verbatim copy; any other line is yielded
unchanged. Returns the new flag, the new generator state, and the yielded
line.
-/
def readerNext (g : Bool) (r : PlainReader) :
    Bool × PlainReader × Option Bytes :=
  if r.done then (g, r, none)
  else
    let g1 := if r.started then g else true
    match r.pending with
    | some l => (g1, { r with pending := none, started := true }, some l)
    | none =>
      match r.remaining with
      | [] => (g1, { r with started := true }, none)
      | l :: ls =>
        if l = dotCRLF then
          (false,
            { r with remaining := ls, started := true, done := true }, none)
        else if startsWithDot l then
          (g1,
            { r with pending := some l, remaining := ls, started := true },
            some (l.drop 1))
        else (g1, { r with remaining := ls, started := true }, some l)

/-- The gate of `command` (nntp/nntp.py lines 456-461): raise
`NNTPSyncError` — returning `none`, with nothing written — while
`self._generating` is set, else write the command line. -/
def commandAttempt (c : Conn) (verb : PyStr) (args : Option PyStr) :
    Option Conn :=
  if c.generating then none
  else some { c with writes := c.writes ++ [cmdLine verb args] }

/-- A lazy reader is outstanding when it has produced (or started
producing) output and has not yet terminated at the sentinel. -/
def readerOutstanding : Option PlainReader → Bool
  | none => false
  | some r => r.started && !r.done

/--
Reachable connection states: from a fresh connection one may create a
plain reader (a generator object; its body does not run on creation —
modelled only while no reader is outstanding, which is the discipline
`command`/`info` maintain), advance the reader when the transport has data
for it, and issue commands (which change state only when accepted).
-/
inductive Reach : Conn → Prop where
  | init : Reach Conn.init
  | newReader (c : Conn) (lines : List Bytes) :
      Reach c → readerOutstanding c.reader = false →
      Reach { c with reader := some ⟨none, lines, false, false⟩ }
  | advance (c : Conn) (r : PlainReader) :
      Reach c → c.reader = some r → r.done = false →
      (r.pending ≠ none ∨ r.remaining ≠ []) →
      Reach { c with generating := (readerNext c.generating r).1,
                     reader := some (readerNext c.generating r).2.1 }
  | cmd (c c' : Conn) (verb : PyStr) (args : Option PyStr) :
      Reach c → commandAttempt c verb args = some c' → Reach c'

end Pynntp

namespace PynntpSpec

/--
The single-yield dot-unstuffing reader the specification demands ("each
multi-line reader yields each server line at most once; implementers MUST
yield exactly once per input line, with one leading `.` removed").
-/
def info_plain_single : List Pynntp.Bytes → List Pynntp.Bytes × Bool
  | [] => ([], false)
  | l :: ls =>
    if l = Pynntp.dotCRLF then ([], true)
    else
      let rest := info_plain_single ls
      ((if Pynntp.startsWithDot l then l.drop 1 else l) :: rest.1, rest.2)

/--
The specification's per-byte yEnc decoding rule: given the pending-escape
flag and an input byte, return the new flag and the (possibly empty) output.
1. escape pending: output `(b - 106) mod 256`, clear the flag;
2. `b = 0x3D` (`=`): set the flag, emit nothing;
3. `b = 0x0A` or `0x0D`: skip;
4. otherwise output `(b - 42) mod 256`.
-/
def yencStep (escapePending : Bool) (b : Nat) : Bool × List Nat :=
  if escapePending then (false, [Pynntp.emod256 ((b : Int) - 106)])
  else if b = 0x3D then (true, [])
  else if b = 0x0A ∨ b = 0x0D then (false, [])
  else (false, [Pynntp.emod256 ((b : Int) - 42)])

/-- Folding the specification's per-byte rule over a buffer. -/
def yencRun : Bool → List Nat → Bool × List Nat
  | e, [] => (e, [])
  | e, b :: rest =>
    let s := yencStep e b
    let r := yencRun s.1 rest
    (r.1, s.2 ++ r.2)

/--
The claim's description of the status parser, amended only in that a status
line with no fields at all produces the uncaught `IndexError` (the source
catches only `ValueError`): strip trailing whitespace, split on the first
whitespace run into an integer code and a remainder message (empty when
absent); `ProtocolError` when the first field is not an integer or the code
is outside [100,600); `TemporaryError` for 4xx, `PermanentError` for 5xx,
otherwise return the pair.
-/
def status_spec (line : Pynntp.Bytes) : Pynntp.StatusResult :=
  match Pynntp.splitWS1 (Pynntp.rstripBytes line) with
  | [] => .idxErr
  | f :: rest =>
    let message := match rest with | [] => [] | m :: _ => m
    match Pynntp.pyIntParse f with
    | none => .protoErr
    | some c =>
      if 400 ≤ c ∧ c < 500 then .tempErr c message
      else if 500 ≤ c ∧ c < 600 then .permErr c message
      else if 100 ≤ c ∧ c < 400 then .ok c message
      else .protoErr

/--
The amended claim's header-parsing loop: parsing stops at the first empty
line (`""` or `"\r\n"`) and also at a continuation line whose content is
entirely whitespace; a continuation line (first character space or tab)
with real content is concatenated onto the previous header's value with
its trailing whitespace stripped and its leading whitespace kept; such a
continuation before any header raises an error; a header line is split at
its first colon with name and value stripped.
-/
def parse_headers_spec_go (acc : List (Pynntp.PyStr × Pynntp.PyStr)) :
    List Pynntp.PyStr → Pynntp.HeadersResult
  | [] => .ok acc
  | l :: ls =>
    if l = [] ∨ l = ['\r', '\n'] ∨
        ((l.head? = some ' ' ∨ l.head? = some '\t') ∧ Pynntp.rstripStr l = []) then
      .ok acc
    else if l.head? = some ' ' ∨ l.head? = some '\t' then
      match acc.getLast? with
      | none => .contFirst
      | some (n, v) =>
        parse_headers_spec_go (acc.dropLast ++ [(n, v ++ Pynntp.rstripStr l)]) ls
    else
      match Pynntp.splitOnce ':' l with
      | none => .badLine
      | some (n, v) =>
        parse_headers_spec_go
          (acc ++ [(Pynntp.stripStr n, Pynntp.stripStr v)]) ls

/-- The amended claim's header parsing, from a fresh accumulator. -/
def parse_headers_spec (lines : List Pynntp.PyStr) : Pynntp.HeadersResult :=
  parse_headers_spec_go [] lines

/--
The claim's body sniffing rule: the first non-blank body line decides —
`some true` when it starts with `=y`, `some false` for any other
non-`\r\n` line (locking the decision), `none` when every line is blank.
-/
def sniff_decode : List Pynntp.Bytes → Option Bool
  | [] => none
  | l :: ls =>
    if l = Pynntp.crlf then sniff_decode ls
    else if Pynntp.startsWithEqY l then some true
    else some false

end PynntpSpec

-- ===================================================================
-- Theorems
-- ===================================================================

namespace Pynntp

theorem splitCRLF_length {bs l r : Bytes} (h : splitCRLF bs = some (l, r)) :
    r.length < bs.length := by
  induction bs generalizing l r with
  | nil => simp [splitCRLF] at h
  | cons b rest ih =>
    rw [splitCRLF] at h
    by_cases hc : b = 13 ∧ rest.head? = some 10
    · rw [if_pos hc] at h
      simp only [Option.some.injEq, Prod.mk.injEq] at h
      obtain ⟨-, hr⟩ := h
      subst hr
      cases rest with
      | nil => simp at hc
      | cons x xs => simp [List.tail_cons]; omega
    · rw [if_neg hc] at h
      cases hs : splitCRLF rest with
      | none => rw [hs] at h; simp at h
      | some p =>
        rw [hs] at h
        simp only [Option.map_some', Option.some.injEq] at h
        have hr2 : r = p.2 := (Prod.mk.injEq .. ▸ h).2.symm
        subst hr2
        have := ih (l := p.1) (r := p.2) (by rw [hs])
        simp only [List.length_cons]
        omega

theorem splitCRLF_append_some {x : Bytes} (y : Bytes) {l r : Bytes}
    (h : splitCRLF x = some (l, r)) :
    splitCRLF (x ++ y) = some (l, r ++ y) := by
  induction x generalizing l r with
  | nil => simp [splitCRLF] at h
  | cons b rest ih =>
    rw [splitCRLF] at h
    rw [List.cons_append, splitCRLF]
    by_cases hc : b = 13 ∧ rest.head? = some 10
    · have hc' : b = 13 ∧ (rest ++ y).head? = some 10 := by
        obtain ⟨h1, h2⟩ := hc
        refine ⟨h1, ?_⟩
        cases rest with
        | nil => simp at h2
        | cons a as => simpa using h2
      rw [if_pos hc] at h
      rw [if_pos hc']
      simp only [Option.some.injEq, Prod.mk.injEq] at h ⊢
      obtain ⟨hl, hr⟩ := h
      refine ⟨hl, ?_⟩
      subst hr
      cases rest with
      | nil => simp at hc
      | cons a as => simp
    · have hc' : ¬(b = 13 ∧ (rest ++ y).head? = some 10) := by
        intro ⟨h1, h2⟩
        apply hc
        refine ⟨h1, ?_⟩
        cases rest with
        | nil =>
          exfalso
          subst h1
          rw [if_neg hc] at h
          simp [splitCRLF] at h
        | cons a as => simpa using h2
      rw [if_neg hc] at h
      rw [if_neg hc']
      cases hs : splitCRLF rest with
      | none => rw [hs] at h; simp at h
      | some p =>
        rw [hs] at h
        simp only [Option.map_some', Option.some.injEq] at h
        rw [ih (l := p.1) (r := p.2) (by rw [hs])]
        simp only [Option.map_some', Option.some.injEq]
        obtain ⟨h1, h2⟩ := Prod.mk.injEq .. ▸ h
        subst h1
        subst h2
        rfl

theorem fifoLinesGo_congr :
    ∀ (f1 f2 : Nat) (bs : Bytes), bs.length ≤ f1 → bs.length ≤ f2 →
      fifoLinesGo f1 bs = fifoLinesGo f2 bs := by
  intro f1
  induction f1 with
  | zero =>
    intro f2 bs h1 _
    have hb : bs = [] := List.eq_nil_of_length_eq_zero (Nat.le_zero.mp h1)
    subst hb
    cases f2 with
    | zero => rfl
    | succ f2 => simp [fifoLinesGo, splitCRLF]
  | succ f1 ih =>
    intro f2 bs h1 h2
    cases f2 with
    | zero =>
      have hb : bs = [] := List.eq_nil_of_length_eq_zero (Nat.le_zero.mp h2)
      subst hb
      simp [fifoLinesGo, splitCRLF]
    | succ f2 =>
      cases h : splitCRLF bs with
      | none => simp [fifoLinesGo, h]
      | some p =>
        obtain ⟨l, r⟩ := p
        have hr := splitCRLF_length h
        simp only [fifoLinesGo, h]
        rw [ih f2 r (by omega) (by omega)]

theorem fifoLines_of_none {bs : Bytes} (h : splitCRLF bs = none) :
    fifoLines bs = ([], bs) := by
  cases bs with
  | nil => rfl
  | cons b rest => simp [fifoLines, fifoLinesGo, h]

theorem fifoLines_of_some {bs l r : Bytes} (h : splitCRLF bs = some (l, r)) :
    fifoLines bs = (l :: (fifoLines r).1, (fifoLines r).2) := by
  have hr := splitCRLF_length h
  cases bs with
  | nil => simp [splitCRLF] at h
  | cons b rest =>
    show fifoLinesGo (rest.length + 1) (b :: rest) = _
    simp only [fifoLinesGo, h]
    rw [fifoLinesGo_congr rest.length r.length r (by simpa using Nat.lt_succ_iff.mp hr) le_rfl]
    rfl

/-- The leftover of a fifo drain contains no further complete line. -/
theorem fifoLines_leftover (bs : Bytes) : splitCRLF (fifoLines bs).2 = none := by
  cases h : splitCRLF bs with
  | none => rw [fifoLines_of_none h]; exact h
  | some p =>
    obtain ⟨l, r⟩ := p
    rw [fifoLines_of_some h]
    exact fifoLines_leftover r
termination_by bs.length
decreasing_by exact splitCRLF_length h

/-- Fifo line-draining is a stream splitter: draining a concatenation first
drains the head, then the leftover joined with the tail. -/
theorem fifoLines_append (x y : Bytes) :
    fifoLines (x ++ y) =
      ((fifoLines x).1 ++ (fifoLines ((fifoLines x).2 ++ y)).1,
       (fifoLines ((fifoLines x).2 ++ y)).2) := by
  cases h : splitCRLF x with
  | none => rw [fifoLines_of_none h]; simp
  | some p =>
    obtain ⟨l, r⟩ := p
    have hxy : splitCRLF (x ++ y) = some (l, r ++ y) := splitCRLF_append_some y h
    rw [fifoLines_of_some h, fifoLines_of_some hxy]
    simp only [List.cons_append]
    rw [fifoLines_append r y]
termination_by x.length
decreasing_by exact splitCRLF_length h

/-- The dot-stuffing loop over a concatenation of line lists: if the first
part hits the sentinel the second part is ignored, otherwise the yields
concatenate. -/
theorem dotProcess_append (ls ms : List Bytes) :
    dotProcess (ls ++ ms) =
      if (dotProcess ls).2 then dotProcess ls
      else ((dotProcess ls).1 ++ (dotProcess ms).1, (dotProcess ms).2) := by
  induction ls with
  | nil => simp [dotProcess]
  | cons l ls ih =>
    rw [List.cons_append, dotProcess, dotProcess]
    by_cases hl : l = dotCRLF
    · simp [hl]
    · simp only [if_neg hl, ih]
      by_cases ht : (dotProcess ls).2
      · simp [ht]
      · simp [ht, List.append_assoc]

/-- The chunked gzip reader computes a function of the flattened byte
stream alone. -/
theorem info_gzip_run_eq (chunks : List (Bytes × Bytes)) (fifo : Bytes)
    (hf : splitCRLF fifo = none) :
    info_gzip_run chunks fifo = gzipStreamLines (fifo ++ chunksBytes chunks) := by
  induction chunks generalizing fifo with
  | nil =>
    rw [info_gzip_run, gzipStreamLines, chunksBytes, List.append_nil,
      fifoLines_of_none hf]
    simp [dotProcess]
  | cons c rest ih =>
    obtain ⟨d, u⟩ := c
    simp only [info_gzip_run, gzipStreamLines, chunksBytes]
    have hassoc : fifo ++ (d ++ (u ++ chunksBytes rest)) =
        (fifo ++ (d ++ u)) ++ chunksBytes rest := by
      simp [List.append_assoc]
    rw [hassoc, fifoLines_append (fifo ++ (d ++ u)) (chunksBytes rest),
      dotProcess_append (fifoLines (fifo ++ (d ++ u))).1]
    by_cases ht : (dotProcess (fifoLines (fifo ++ (d ++ u))).1).2
    · rw [if_pos ht, if_pos ht]
      conv_lhs => rw [← ht]
    · rw [if_neg ht, if_neg ht]
      rw [ih _ (fifoLines_leftover _), gzipStreamLines]

/--
**C1** (code_bug evidence). On the two-line input `b"..a\r\n"`, `b".\r\n"`,
the plain reader `_info_plain` yields the dot-stuffed line twice — once with
one leading dot stripped and once verbatim — where the specification's
single-yield reader yields it exactly once; the gzip reader `_info_gzip`
shows the same double yield on the equivalent decompressed stream.
-/
theorem info_readers_double_yield_dot_stuffed :
    info_plain [[46, 46, 97, 13, 10], [46, 13, 10]] =
      ([[46, 97, 13, 10], [46, 46, 97, 13, 10]], true) ∧
    PynntpSpec.info_plain_single [[46, 46, 97, 13, 10], [46, 13, 10]] =
      ([[46, 97, 13, 10]], true) ∧
    info_gzip [([46, 46, 97, 13, 10, 46, 13, 10], [])] =
      ([[46, 97, 13, 10], [46, 46, 97, 13, 10]], true) := by
  decide

/--
**C4.** For every pair of gzip-reader inputs whose surfaced byte streams
(decompressed data plus trailing raw `unused_data`) are byte-identical, the
gzip reader yields the same line sequence (and the same termination
verdict), regardless of how the bytes are split between compressed data and
the raw trailing sentinel, and regardless of chunking.
-/
theorem info_gzip_termination_equivalence (A B : List (Bytes × Bytes))
    (h : chunksBytes A = chunksBytes B) :
    info_gzip A = info_gzip B := by
  rw [info_gzip, info_gzip, info_gzip_run_eq A [] rfl,
    info_gzip_run_eq B [] rfl]
  simp only [List.nil_append, h]

/--
Witness for C4: the response `b"a\r\n"` with terminating `b".\r\n"` once
inside the decompressed stream and once as raw trailing `unused_data`.
-/
theorem info_gzip_termination_equivalence_witness :
    chunksBytes [([97, 13, 10, 46, 13, 10], ([] : Bytes))] =
      chunksBytes [([97, 13, 10], [46, 13, 10])] ∧
    info_gzip [([97, 13, 10, 46, 13, 10], [])] =
      info_gzip [([97, 13, 10], [46, 13, 10])] :=
  ⟨by decide, info_gzip_termination_equivalence _ _ (by decide)⟩

theorem xor_cancel_xor (x m : Nat) : (x ^^^ m) ^^^ m = x := by
  rw [Nat.xor_assoc, Nat.xor_self, Nat.xor_zero]

/-- The zlib incremental-CRC property: feeding `b` with the CRC of `a` as
the initial value equals the CRC of `a ++ b`. -/
theorem crc32_append (a b : Bytes) (v : Nat) :
    crc32 b (crc32 a v) = crc32 (a ++ b) v := by
  simp only [crc32, List.foldl_append]
  rw [xor_cancel_xor]

/-- The crc32 of nothing with initial value `v` is `v`. -/
theorem crc32_nil (v : Nat) : crc32 [] v = v := by
  simp only [crc32, List.foldl_nil]
  exact xor_cancel_xor v _

/-- The byte loop of `YEnc.decode` implements the specification's per-byte
rule: same output bytes, and the escape flag (an int in the source, a Bool
in the rule) agrees. -/
theorem yencDecodeGo_eq_spec (e : Nat) (bs : Bytes) :
    (yencDecodeGo e bs).2 = (PynntpSpec.yencRun (decide (e ≠ 0)) bs).2 ∧
    ((yencDecodeGo e bs).1 ≠ 0 ↔ (PynntpSpec.yencRun (decide (e ≠ 0)) bs).1 = true) := by
  induction bs generalizing e with
  | nil =>
    refine ⟨rfl, ?_⟩
    show e ≠ 0 ↔ (decide (e ≠ 0)) = true
    exact ⟨fun h => decide_eq_true h, fun h => of_decide_eq_true h⟩
  | cons b rest ih =>
    have hz : (decide ((0 : Nat) ≠ 0)) = false := by simp
    cases e with
    | succ n =>
      have hd : (decide (n + 1 ≠ 0)) = true := by simp
      rw [hd]
      obtain ⟨h1, h2⟩ := ih 0
      rw [hz] at h1 h2
      constructor
      · show emod256 ((b : Int) - 106) :: (yencDecodeGo 0 rest).2 =
          emod256 ((b : Int) - 106) :: (PynntpSpec.yencRun false rest).2
        rw [h1]
      · show (yencDecodeGo 0 rest).1 ≠ 0 ↔
          (PynntpSpec.yencRun false rest).1 = true
        exact h2
    | zero =>
      rw [hz]
      by_cases hb1 : b = 0x3D
      · subst hb1
        obtain ⟨h1, h2⟩ := ih 1
        have ho : (decide ((1 : Nat) ≠ 0)) = true := by simp
        rw [ho] at h1 h2
        exact ⟨h1, h2⟩
      · by_cases hb2 : b = 0x0D ∨ b = 0x0A
        · have hb2' : b = 0x0A ∨ b = 0x0D := hb2.symm
          have hL : yencDecodeGo 0 (b :: rest) = yencDecodeGo 0 rest := by
            show (if b = 0x3D then yencDecodeGo 1 rest
                  else if b = 0x0D ∨ b = 0x0A then yencDecodeGo 0 rest
                  else ((yencDecodeGo 0 rest).1,
                    emod256 ((b : Int) - 42) :: (yencDecodeGo 0 rest).2)) = _
            rw [if_neg hb1, if_pos hb2]
          have hstep : PynntpSpec.yencStep false b = (false, []) := by
            show (if b = 0x3D then ((true : Bool), ([] : List Nat))
                  else if b = 0x0A ∨ b = 0x0D then (false, [])
                  else (false, [emod256 ((b : Int) - 42)])) = _
            rw [if_neg hb1, if_pos hb2']
          have hR : PynntpSpec.yencRun false (b :: rest) =
              PynntpSpec.yencRun false rest := by
            show ((PynntpSpec.yencRun (PynntpSpec.yencStep false b).1 rest).1,
                (PynntpSpec.yencStep false b).2 ++
                  (PynntpSpec.yencRun (PynntpSpec.yencStep false b).1 rest).2)
              = _
            rw [hstep]
            rfl
          obtain ⟨h1, h2⟩ := ih 0
          rw [hz] at h1 h2
          rw [hL, hR]
          exact ⟨h1, h2⟩
        · have hb2' : ¬(b = 0x0A ∨ b = 0x0D) := fun h => hb2 h.symm
          have hL : yencDecodeGo 0 (b :: rest) =
              ((yencDecodeGo 0 rest).1,
                emod256 ((b : Int) - 42) :: (yencDecodeGo 0 rest).2) := by
            show (if b = 0x3D then yencDecodeGo 1 rest
                  else if b = 0x0D ∨ b = 0x0A then yencDecodeGo 0 rest
                  else ((yencDecodeGo 0 rest).1,
                    emod256 ((b : Int) - 42) :: (yencDecodeGo 0 rest).2)) = _
            rw [if_neg hb1, if_neg hb2]
          have hstep : PynntpSpec.yencStep false b =
              (false, [emod256 ((b : Int) - 42)]) := by
            show (if b = 0x3D then ((true : Bool), ([] : List Nat))
                  else if b = 0x0A ∨ b = 0x0D then (false, [])
                  else (false, [emod256 ((b : Int) - 42)])) = _
            rw [if_neg hb1, if_neg hb2']
          have hR : PynntpSpec.yencRun false (b :: rest) =
              ((PynntpSpec.yencRun false rest).1,
                emod256 ((b : Int) - 42) :: (PynntpSpec.yencRun false rest).2) := by
            show ((PynntpSpec.yencRun (PynntpSpec.yencStep false b).1 rest).1,
                (PynntpSpec.yencStep false b).2 ++
                  (PynntpSpec.yencRun (PynntpSpec.yencStep false b).1 rest).2)
              = _
            rw [hstep]
            rfl
          obtain ⟨h1, h2⟩ := ih 0
          rw [hz] at h1 h2
          rw [hL, hR]
          exact ⟨by rw [h1], h2⟩

/-- The running crc32 after any sequence of `decode` calls equals the
CRC-32 of all output decoded so far, for any starting state. -/
theorem decodeMany_crc (bufs : List Bytes) :
    ∀ st : YEncState,
      ((YEnc.decodeMany st bufs).1).crc32 =
        crc32 (YEnc.decodeMany st bufs).2 st.crc32 := by
  induction bufs with
  | nil => intro st; exact (crc32_nil st.crc32).symm
  | cons buf bufs ih =>
    intro st
    show (YEnc.decodeMany (YEnc.decode st buf).1 bufs).1.crc32 =
      crc32 ((YEnc.decode st buf).2 ++
        (YEnc.decodeMany (YEnc.decode st buf).1 bufs).2) st.crc32
    rw [ih]
    have h1 : (YEnc.decode st buf).1.crc32 =
        crc32 (YEnc.decode st buf).2 st.crc32 := rfl
    rw [h1, crc32_append]

/--
**C3.** The yEnc decoder follows the specification's per-byte rule (escape
pending → output `(b - 106) mod 256` and clear; `=` → set the flag and emit
nothing; CR/LF → skip; otherwise output `(b - 42) mod 256`), and after every
sequence of `decode` calls on a fresh decoder the `crc32` field equals the
CRC-32 (IEEE polynomial, zlib convention) of the concatenation of all bytes
decoded by that instance so far.
-/
theorem yenc_decode_rule_and_crc_invariant :
    (∀ (e : Nat) (bs : Bytes),
      (yencDecodeGo e bs).2 = (PynntpSpec.yencRun (decide (e ≠ 0)) bs).2 ∧
      ((yencDecodeGo e bs).1 ≠ 0 ↔
        (PynntpSpec.yencRun (decide (e ≠ 0)) bs).1 = true)) ∧
    (∀ bufs : List Bytes,
      ((YEnc.decodeMany YEncState.init bufs).1).crc32 =
        crc32 (YEnc.decodeMany YEncState.init bufs).2 0) :=
  ⟨yencDecodeGo_eq_spec, fun bufs => decodeMany_crc bufs YEncState.init⟩

/--
**C2** (counterexample). An empty status line (bare `b"\r\n"`) makes
`status` raise an uncaught `IndexError` from `parts[0]` — only `ValueError`
is converted to `NNTPProtocolError` — contradicting the claim that every
non-integer first field raises `ProtocolError`.
-/
theorem status_empty_line_index_error :
    status [13, 10] = .idxErr ∧ StatusResult.idxErr ≠ StatusResult.protoErr := by
  exact ⟨by decide, by decide⟩

/--
**C2** (amended). For every status line, `status` strips trailing
whitespace, splits on the first whitespace run into an integer code and a
remainder message (empty when absent), raises `ProtocolError` when the
first field is not an integer or the code is outside [100,600), raises
`TemporaryError` for 4xx and `PermanentError` for 5xx, and otherwise
returns the pair — except that a line with no fields at all raises an
uncaught `IndexError` rather than `ProtocolError`.
-/
theorem status_parses_per_spec (line : Bytes) :
    status line = PynntpSpec.status_spec line := by
  rw [status, PynntpSpec.status_spec]
  cases hp : splitWS1 (rstripBytes line) with
  | nil => rfl
  | cons f rest =>
    simp only [List.head?]
    cases hi : pyIntParse f with
    | none => rfl
    | some c =>
      cases rest with
      | nil =>
        simp only [List.drop_succ_cons, List.drop_zero, List.head?,
          Option.getD]
        split_ifs <;> first | rfl | omega
      | cons m ms =>
        simp only [List.drop_succ_cons, List.drop_zero, List.head?,
          Option.getD]
        split_ifs <;> first | rfl | omega

/-- The header-parsing loop agrees with the amended claim's description at
every accumulator. -/
theorem parse_headers_go_eq_spec (lines : List PyStr) :
    ∀ acc, parse_headers_go acc lines = PynntpSpec.parse_headers_spec_go acc lines := by
  induction lines with
  | nil => intro _; rfl
  | cons l ls ih =>
    intro acc
    by_cases h0 : l = [] ∨ l = ['\r', '\n']
    · have hp : parse_header l = .ended := by
        rw [parse_header, if_pos h0]
      have h0' : l = [] ∨ l = ['\r', '\n'] ∨
          ((l.head? = some ' ' ∨ l.head? = some '\t') ∧ rstripStr l = []) :=
        h0.elim (fun h => Or.inl h) (fun h => Or.inr (Or.inl h))
      simp only [parse_headers_go, hp, PynntpSpec.parse_headers_spec_go,
        if_pos h0']
    · by_cases hws : l.head? = some ' ' ∨ l.head? = some '\t'
      · have hp : parse_header l = .cont (rstripStr l) := by
          rw [parse_header, if_neg h0, if_pos hws]
        by_cases hr : rstripStr l = []
        · have h0' : l = [] ∨ l = ['\r', '\n'] ∨
              ((l.head? = some ' ' ∨ l.head? = some '\t') ∧ rstripStr l = []) :=
            Or.inr (Or.inr ⟨hws, hr⟩)
          simp only [parse_headers_go, hp, if_pos hr,
            PynntpSpec.parse_headers_spec_go, if_pos h0']
        · have h0' : ¬(l = [] ∨ l = ['\r', '\n'] ∨
              ((l.head? = some ' ' ∨ l.head? = some '\t') ∧ rstripStr l = [])) := by
            intro h
            rcases h with h | h | h
            · exact h0 (Or.inl h)
            · exact h0 (Or.inr h)
            · exact hr h.2
          simp only [parse_headers_go, hp, if_neg hr,
            PynntpSpec.parse_headers_spec_go, if_neg h0', if_pos hws]
          cases hacc : acc.getLast? with
          | none => rfl
          | some p =>
            obtain ⟨n, v⟩ := p
            have hupd : updLast acc (rstripStr l) =
                acc.dropLast ++ [(n, v ++ rstripStr l)] := by
              unfold updLast
              rw [hacc]
            rw [hupd]
            exact ih _
      · have hp : parse_header l =
            (match splitOnce ':' l with
             | none => HeaderLine.err
             | some (n, v) => HeaderLine.field (stripStr n) (stripStr v)) := by
          rw [parse_header, if_neg h0, if_neg hws]
        have h0' : ¬(l = [] ∨ l = ['\r', '\n'] ∨
            ((l.head? = some ' ' ∨ l.head? = some '\t') ∧ rstripStr l = [])) := by
          intro h
          rcases h with h | h | h
          · exact h0 (Or.inl h)
          · exact h0 (Or.inr h)
          · exact hws h.1
        cases hsp : splitOnce ':' l with
        | none =>
          have hp' : parse_header l = .err := by rw [hp, hsp]
          simp only [parse_headers_go, hp',
            PynntpSpec.parse_headers_spec_go, if_neg h0', if_neg hws, hsp]
        | some q =>
          obtain ⟨n, v⟩ := q
          have hp' : parse_header l = .field (stripStr n) (stripStr v) := by
            rw [hp, hsp]
          simp only [parse_headers_go, hp',
            PynntpSpec.parse_headers_spec_go, if_neg h0', if_neg hws, hsp]
          exact ih _

/-- Lookup after one dict insertion. -/
theorem dictGet_dictInsert (m : List (PyStr × PyStr)) (k v k' : PyStr) :
    dictGet (dictInsert m k v) k' =
      if pyCasefold k = pyCasefold k' then some v else dictGet m k' := by
  induction m with
  | nil =>
    by_cases h : pyCasefold k = pyCasefold k'
    · simp [dictInsert, dictGet, List.find?, h]
    · simp [dictInsert, dictGet, List.find?, h]
  | cons p rest ih =>
    obtain ⟨k0, v0⟩ := p
    by_cases hk : pyCasefold k0 = pyCasefold k
    · rw [show dictInsert ((k0, v0) :: rest) k v = (k0, v) :: rest from by
        rw [dictInsert, if_pos hk]]
      by_cases hk' : pyCasefold k0 = pyCasefold k'
      · have heq : pyCasefold k = pyCasefold k' := hk.symm.trans hk'
        rw [dictGet, List.find?_cons_of_pos _ (by simpa using hk'),
          if_pos heq]
        rfl
      · have hne : ¬ pyCasefold k = pyCasefold k' := fun h => hk' (hk.trans h)
        rw [dictGet, List.find?_cons_of_neg _ (by simpa using hk'),
          if_neg hne, dictGet, List.find?_cons_of_neg _ (by simpa using hk')]
    · rw [show dictInsert ((k0, v0) :: rest) k v =
          (k0, v0) :: dictInsert rest k v from by
        rw [dictInsert, if_neg hk]]
      by_cases hk' : pyCasefold k0 = pyCasefold k'
      · have hne : ¬ pyCasefold k = pyCasefold k' := fun h =>
          hk (hk'.trans h.symm)
        rw [dictGet, List.find?_cons_of_pos _ (by simpa using hk'),
          if_neg hne, dictGet, List.find?_cons_of_pos _ (by simpa using hk')]
      · rw [dictGet, List.find?_cons_of_neg _ (by simpa using hk')]
        rw [show (Option.map Prod.snd
            (List.find? (fun p => pyCasefold p.1 = pyCasefold k')
              (dictInsert rest k v))) = dictGet (dictInsert rest k v) k'
          from rfl]
        rw [ih]
        by_cases hkk : pyCasefold k = pyCasefold k'
        · rw [if_pos hkk, if_pos hkk]
        · rw [if_neg hkk, if_neg hkk]
          show _ = Option.map Prod.snd
            (List.find? (fun p => pyCasefold p.1 = pyCasefold k')
              ((k0, v0) :: rest))
          rw [List.find?_cons_of_neg _ (by simpa using hk')]
          rfl

/-- Building a `HeaderDict` from ordered pairs: lookups see the LAST pair
whose name is casefold-equal to the queried key. -/
theorem headerDict_last_wins (pairs : List (PyStr × PyStr)) (k : PyStr) :
    dictGet (headerDict pairs) k =
      ((pairs.filter (fun p => pyCasefold p.1 = pyCasefold k)).getLast?).map
        Prod.snd := by
  induction pairs using List.reverseRecOn with
  | nil => rfl
  | append_singleton xs x ih =>
    rw [headerDict, List.foldl_append, List.foldl_cons, List.foldl_nil]
    show dictGet (dictInsert (headerDict xs) x.1 x.2) k = _
    rw [dictGet_dictInsert, List.filter_append]
    by_cases hx : pyCasefold x.1 = pyCasefold k
    · simp [hx]
    · simp [hx, ih]

/--
**C8** (counterexample). On header lines `"A: b\r\n"` and `"\tc\r\n"` the
continuation is `rstrip`ped only: the parsed value of `A` is `"b\tc"`,
keeping the continuation's leading tab, whereas the claim (leading
whitespace of the continuation span stripped) predicts `"bc"` (or
`"bc\r\n"` were the trailing newline kept).
-/
theorem parse_headers_keeps_continuation_whitespace :
    parse_headers ["A: b\r\n".toList, "\tc\r\n".toList] =
      .ok [("A".toList, "b\tc".toList)] ∧
    "b\tc".toList ≠ "bc".toList ∧ "b\tc".toList ≠ "bc\r\n".toList :=
  ⟨by decide, by decide, by decide⟩

/--
**C8** (amended). `parse_headers` stops at the first empty line (`""` or
`"\r\n"`) and also at a whitespace-only continuation line; every
continuation line with real content is concatenated onto the previous
header's value with its trailing whitespace stripped and its leading
whitespace kept; a contentful continuation before any header raises an
error; and when a header name is repeated (case-insensitively) the last
value wins in the resulting `HeaderDict`.
-/
theorem parse_headers_amended :
    (∀ lines : List PyStr,
      parse_headers lines = PynntpSpec.parse_headers_spec lines) ∧
    (∀ (pairs : List (PyStr × PyStr)) (k : PyStr),
      dictGet (headerDict pairs) k =
        ((pairs.filter (fun p => pyCasefold p.1 = pyCasefold k)).getLast?).map
          Prod.snd) :=
  ⟨fun lines => parse_headers_go_eq_spec lines [], headerDict_last_wins⟩

/-- With decoding on, `_body` skips every `=y` line and concatenates the
decoder output of the others. -/
theorem body_go_decode (lines : List Bytes) :
    ∀ (st : YEncState) (acc : List Bytes),
      body_go st (some true) acc lines =
        acc.flatten ++
          (YEnc.decodeMany st (lines.filter (fun l => !startsWithEqY l))).2 := by
  induction lines with
  | nil =>
    intro st acc
    show acc.flatten = acc.flatten ++ (YEnc.decodeMany st []).2
    simp [YEnc.decodeMany]
  | cons l ls ih =>
    intro st acc
    have hstep : body_go st (some true) acc (l :: ls) =
        (if startsWithEqY l then body_go st (some true) acc ls
         else body_go (YEnc.decode st l).1 (some true)
           (acc ++ [(YEnc.decode st l).2]) ls) := rfl
    rw [hstep]
    by_cases hy : startsWithEqY l
    · rw [if_pos hy, ih, List.filter_cons_of_neg (by simp [hy])]
    · rw [if_neg hy, ih, List.filter_cons_of_pos (by simp [hy]),
        List.flatten_append]
      show acc.flatten ++ [(YEnc.decode st l).2].flatten ++
          (YEnc.decodeMany (YEnc.decode st l).1
            (ls.filter (fun l => !startsWithEqY l))).2 =
        acc.flatten ++ ((YEnc.decode st l).2 ++
          (YEnc.decodeMany (YEnc.decode st l).1
            (ls.filter (fun l => !startsWithEqY l))).2)
      simp [List.append_assoc]

/-- With decoding off, `_body` concatenates the lines unchanged. -/
theorem body_go_raw (lines : List Bytes) :
    ∀ (st : YEncState) (acc : List Bytes),
      body_go st (some false) acc lines = acc.flatten ++ lines.flatten := by
  induction lines with
  | nil => intro st acc; simp [body_go]
  | cons l ls ih =>
    intro st acc
    have hstep : body_go st (some false) acc (l :: ls) =
        body_go st (some false) (acc ++ [l]) ls := rfl
    rw [hstep, ih]
    simp [List.append_assoc]

/-- A `\r\n` line passes through a fresh decoder without output and
without changing the state. -/
theorem yenc_decode_crlf : YEnc.decode YEncState.init crlf = (YEncState.init, []) := by
  decide

/-- With no explicit `decode`, `_body` computes: decoded output of the
post-sniff lines when the first non-blank line starts `=y`, the raw
concatenation otherwise. -/
theorem body_go_none (lines : List Bytes) :
    ∀ acc : List Bytes,
      body_go YEncState.init none acc lines =
        match PynntpSpec.sniff_decode lines with
        | some true =>
          (YEnc.decodeMany YEncState.init
            (lines.filter (fun l => !startsWithEqY l))).2
        | _ => acc.flatten ++ lines.flatten := by
  induction lines with
  | nil => intro acc; simp [body_go, PynntpSpec.sniff_decode]
  | cons l ls ih =>
    intro acc
    have hstep : body_go YEncState.init none acc (l :: ls) =
        (if startsWithEqY l then body_go YEncState.init (some true) [] ls
         else if l ≠ crlf then
           body_go YEncState.init (some false) (acc ++ [l]) ls
         else body_go YEncState.init none (acc ++ [l]) ls) := rfl
    have hsn : PynntpSpec.sniff_decode (l :: ls) =
        (if l = crlf then PynntpSpec.sniff_decode ls
         else if startsWithEqY l then some true
         else some false) := rfl
    rw [hstep, hsn]
    by_cases hy : startsWithEqY l
    · have hlc : l ≠ crlf := by
        intro h
        subst h
        exact absurd hy (by decide)
      rw [if_pos hy, if_neg hlc, if_pos hy,
        body_go_decode, List.filter_cons_of_neg (by simp [hy])]
      simp
    · by_cases hc : l = crlf
      · have hn : ¬ (l ≠ crlf) := by simpa using hc
        rw [if_neg hy, if_pos hc, if_neg hn, ih]
        subst hc
        cases hs : PynntpSpec.sniff_decode ls with
        | none => simp [List.append_assoc]
        | some d =>
          cases d with
          | false => simp [List.append_assoc]
          | true =>
            simp only
            rw [List.filter_cons_of_pos (by decide)]
            show _ = ((YEnc.decode YEncState.init crlf).2 ++
              (YEnc.decodeMany (YEnc.decode YEncState.init crlf).1
                (ls.filter (fun l => !startsWithEqY l))).2)
            rw [yenc_decode_crlf]
            simp
      · rw [if_neg hy, if_neg hc, if_pos hc, body_go_raw, if_neg hy]
        simp [List.append_assoc]

/--
**C10** (counterexample). For an ARTICLE whose Subject contains `"yEnc"`
and whose body is the single non-blank line `b"hi\r\n"` (which does not
start with `=y`), `article()` forces `decode = True` before the body is
read, so the body is yEnc-decoded to `[62, 63]` instead of being returned
raw — the decision is not determined by the body sniff alone.
-/
theorem article_subject_forces_decode :
    articleDecodeDefault "Re: yEnc post".toList none = some true ∧
    PynntpSpec.sniff_decode [[104, 105, 13, 10]] = some false ∧
    body_ [[104, 105, 13, 10]] (some true) = [62, 63] ∧
    body_ [[104, 105, 13, 10]] (some false) = [104, 105, 13, 10] :=
  ⟨by decide, by decide, by decide, by decide⟩

/--
**C10** (amended). For BODY (and `_body` generally): an explicit caller
`decode` argument wins — `some true` skips every `=y` line and feeds all
others through a fresh yEnc decoder, returning the concatenated output;
`some false` returns the raw concatenation; with `decode` unset, the body
is decoded iff the first non-blank line starts with `=y` (blank-prefix
bytes are discarded), any other non-`\r\n` line locking decoding off. For
ARTICLE additionally, when `decode` is unset and the Subject header
contains `"yEnc"`, decoding is forced on before the body is read.
-/
theorem body_decode_decision_amended :
    (∀ lines : List Bytes,
      body_ lines (some true) =
        (YEnc.decodeMany YEncState.init
          (lines.filter (fun l => !startsWithEqY l))).2) ∧
    (∀ lines : List Bytes, body_ lines (some false) = lines.flatten) ∧
    (∀ lines : List Bytes,
      body_ lines none =
        body_ lines (some ((PynntpSpec.sniff_decode lines).getD false))) ∧
    (∀ (subject : PyStr) (d : Option Bool),
      articleDecodeDefault subject d =
        if d = none ∧ containsSub subject "yEnc".toList then some true
        else d) := by
  refine ⟨?_, ?_, ?_, ?_⟩
  · intro lines
    rw [body_, body_go_decode]
    rfl
  · intro lines
    rw [body_, body_go_raw]
    rfl
  · intro lines
    rw [body_, body_go_none]
    cases hs : PynntpSpec.sniff_decode lines with
    | none =>
      show lines.flatten = body_go YEncState.init (some false) [] lines
      rw [body_go_raw]
      rfl
    | some d =>
      cases d with
      | true =>
        show _ = body_go YEncState.init (some true) [] lines
        rw [body_go_decode]
        rfl
      | false =>
        show lines.flatten = body_go YEncState.init (some false) [] lines
        rw [body_go_raw]
        rfl
  · intro subject d
    rfl

/--
**C9** (counterexample). POST body `b"hi\nbad\x00"` after a 340: the legal
first line goes out as `b"hi\r\n"`, the NUL line is truncated, the
terminator is sent — but when the final status is `441 nope`, `status()`
raises `TemporaryError(441)` before the illegal-characters check, so
`DataError("Illegal characters found")` is NOT raised, contradicting
"raises DataError regardless of that final status code".
-/
theorem post_illegal_4xx_not_dataerr :
    (post_after340 [104, 105, 10, 98, 97, 100, 0]
        [52, 52, 49, 32, 110, 111, 112, 101, 13, 10]).1 =
      .tempErr 441 [110, 111, 112, 101] ∧
    (post_after340 [104, 105, 10, 98, 97, 100, 0]
        [52, 52, 49, 32, 110, 111, 112, 101, 13, 10]).2 =
      [[104, 105, 13, 10], [46, 13, 10]] ∧
    PostResult.tempErr 441 [110, 111, 112, 101] ≠ PostResult.dataErr :=
  ⟨by decide, by decide, by decide⟩

/--
**C9** (amended). For every POST body with an illegal line: every
preceding legal line is sent dot-stuffed with its trailing newline
normalized to `\r\n`, no byte of the offending or later lines is sent, the
terminator `b".\r\n"` is emitted, and the final status is read. When that
final status is a non-error reply (code 100-399) the client raises
`DataError("Illegal characters found")` regardless of the code; a 4xx, 5xx
or malformed final status instead raises the corresponding status error
from `status()` before the illegal check is reached.
-/
theorem post_illegal_amended :
    (∀ lines : List Bytes,
      postLines lines =
        ((lines.takeWhile (fun l => !hasIllegal (chopEOL (dotStuff l)))).map
           (fun l => chopEOL (dotStuff l) ++ crlf),
         lines.any (fun l => hasIllegal (chopEOL (dotStuff l))))) ∧
    (∀ body finalLine : Bytes,
      (postLines (splitLinesNL body)).2 = true →
        (post_after340 body finalLine).2 =
          (postLines (splitLinesNL body)).1 ++ [dotCRLF] ∧
        (∀ c m, status finalLine = .ok c m →
          (post_after340 body finalLine).1 = .dataErr) ∧
        (∀ c m, status finalLine = .tempErr c m →
          (post_after340 body finalLine).1 = .tempErr c m) ∧
        (∀ c m, status finalLine = .permErr c m →
          (post_after340 body finalLine).1 = .permErr c m)) := by
  constructor
  · intro lines
    induction lines with
    | nil => rfl
    | cons l ls ih =>
      have hstep : postLines (l :: ls) =
          (if hasIllegal (chopEOL (dotStuff l)) then ([], true)
           else ((chopEOL (dotStuff l) ++ crlf) :: (postLines ls).1,
             (postLines ls).2)) := rfl
      by_cases hI : hasIllegal (chopEOL (dotStuff l))
      · rw [hstep, if_pos hI]
        simp [hI]
      · rw [hstep, if_neg hI, ih]
        simp [hI]
  · intro body finalLine hIll
    have h0 : (post_after340 body finalLine).1 =
        (match status finalLine with
         | .tempErr c m => PostResult.tempErr c m
         | .permErr c m => PostResult.permErr c m
         | .protoErr => PostResult.protoErr
         | .idxErr => PostResult.idxErr
         | .ok c m =>
           if (postLines (splitLinesNL body)).2 then PostResult.dataErr
           else if c ≠ 240 then PostResult.replyErr c m
           else
             match splitWS1 m with
             | [] => PostResult.idxErr
             | msgid :: _ =>
               if startsWithBytes msgid [60] ∧ endsWithBytes msgid [62] then
                 PostResult.posted msgid
               else PostResult.postedTrue) := rfl
    refine ⟨rfl, ?_, ?_, ?_⟩
    · intro c m hst
      rw [h0, hst]
      simp [hIll]
    · intro c m hst
      rw [h0, hst]
    · intro c m hst
      rw [h0, hst]

/-- Witness for the amended C9 at the concrete body `b"a\x00"` and final
status `441`. -/
theorem post_illegal_amended_witness :
    (postLines (splitLinesNL [97, 0])).2 = true ∧
    status [52, 52, 49, 13, 10] = .tempErr 441 [] ∧
    (post_after340 [97, 0] [52, 52, 49, 13, 10]).1 = .tempErr 441 [] :=
  ⟨by decide, by decide,
    (post_illegal_amended.2 [97, 0] [52, 52, 49, 13, 10] (by decide)).2.2.1
      441 [] (by decide)⟩

/-- When the decompressor never fails, the body loop of `_info_yenczlib`
never returns `none`; its final decoder state is the fold of `decode` over
the non-trailer lines, and its stored trailer is the last `=yend` line. -/
theorem yz_loop_spec {σ : Type} (step : σ → Bytes → Option (σ × Bytes))
    (hstep : ∀ s d, step s d ≠ none) (lines : List Bytes) :
    ∀ s d t fifo out, ∃ s' fifo' out',
      yz_loop step lines s d t fifo out =
        some (s',
          (YEnc.decodeMany d
            (lines.filter (fun l => !startsWithBytes l yendBytes))).1,
          lastYend lines t, fifo', out') := by
  induction lines with
  | nil => intro s d t fifo out; exact ⟨s, fifo, out, rfl⟩
  | cons l ls ih =>
    intro s d t fifo out
    by_cases hy : startsWithBytes l yendBytes
    · have h1 : yz_loop step (l :: ls) s d t fifo out =
          yz_loop step ls s d l fifo out := by
        show (if startsWithBytes l yendBytes then yz_loop step ls s d l fifo out
              else _) = _
        rw [if_pos hy]
      have h2 : lastYend (l :: ls) t = lastYend ls l := by
        show (if startsWithBytes l yendBytes then lastYend ls l
              else lastYend ls t) = _
        rw [if_pos hy]
      rw [h1, h2, List.filter_cons_of_neg (by simp [hy])]
      exact ih s d l fifo out
    · have h2 : lastYend (l :: ls) t = lastYend ls t := by
        show (if startsWithBytes l yendBytes then lastYend ls l
              else lastYend ls t) = _
        rw [if_neg hy]
      cases hsv : step s (YEnc.decode d l).2 with
      | none => exact absurd hsv (hstep _ _)
      | some p =>
        obtain ⟨s1, data⟩ := p
        have h1 : yz_loop step (l :: ls) s d t fifo out =
            (if data = [] then
              yz_loop step ls s1 (YEnc.decode d l).1 t fifo out
             else
              yz_loop step ls s1 (YEnc.decode d l).1 t
                (fifoLines (fifo ++ data)).2
                (out ++ (fifoLines (fifo ++ data)).1)) := by
          show (if startsWithBytes l yendBytes then
                  yz_loop step ls s d l fifo out
                else match step s (YEnc.decode d l).2 with
                  | none => none
                  | some (s', data) =>
                    if data = [] then
                      yz_loop step ls s' (YEnc.decode d l).1 t fifo out
                    else
                      yz_loop step ls s' (YEnc.decode d l).1 t
                        (fifoLines (fifo ++ data)).2
                        (out ++ (fifoLines (fifo ++ data)).1)) = _
          rw [if_neg hy, hsv]
        rw [h1, h2, List.filter_cons_of_pos (by simp [hy])]
        by_cases hd : data = []
        · rw [if_pos hd]
          exact ih s1 (YEnc.decode d l).1 t fifo out
        · rw [if_neg hd]
          exact ih s1 (YEnc.decode d l).1 t _ _

/-- The stored trailer is empty iff the default was empty and no `=yend`
line occurred (an `=yend` line is nonempty). -/
theorem lastYend_eq_nil_iff (lines : List Bytes) :
    ∀ t, lastYend lines t = [] ↔
      (t = [] ∧ lines.all (fun l => !startsWithBytes l yendBytes) = true) := by
  induction lines with
  | nil => intro t; simp [lastYend]
  | cons l ls ih =>
    intro t
    by_cases hy : startsWithBytes l yendBytes
    · have h2 : lastYend (l :: ls) t = lastYend ls l := by
        show (if startsWithBytes l yendBytes then lastYend ls l
              else lastYend ls t) = _
        rw [if_pos hy]
      have hl : l ≠ [] := by
        intro h
        subst h
        exact absurd hy (by decide)
      rw [h2, ih l]
      simp [hy, hl]
    · have h2 : lastYend (l :: ls) t = lastYend ls t := by
        show (if startsWithBytes l yendBytes then lastYend ls l
              else lastYend ls t) = _
        rw [if_neg hy]
      rw [h2, ih t]
      simp [hy]

/--
**C6.** For every yEnc+zlib response with at least one line before the
sentinel (so the header `next()` neither blocks nor dies in
`StopIteration`) and a terminated body, under a never-failing raw inflate:
`_info_yenczlib` raises `DataError("Bad yEnc header")` iff the first
yielded line does not start with `=ybegin`; and when the header is good it
raises `DataError("Missing yEnc trailer")` iff no yielded body line starts
with `=yend`, `DataError("Bad yEnc trailer")` iff the stored (last)
`=yend` line has no `\s+crc(?:32)?=hhhhhhhh` field, and
`DataError("Bad yEnc CRC")` iff the extracted value differs from the
decoder's running CRC-32 over the non-trailer body lines. `YEnc.decode`
itself is total (a plain function in this embedding) and raises nothing.
-/
theorem info_yenczlib_error_conditions {σ : Type}
    (step : σ → Bytes → Option (σ × Bytes)) (s0 : σ)
    (r0 : Bytes) (rest : List Bytes)
    (hstep : ∀ s d, step s d ≠ none)
    (hr0 : r0 ≠ dotCRLF)
    (hterm : (info_plain rest).2 = true) :
    (info_yenczlib step s0 (r0 :: rest) = .badHeader ↔
      startsWithBytes (if startsWithDot r0 then r0.drop 1 else r0)
        ybeginBytes = false) ∧
    (startsWithBytes (if startsWithDot r0 then r0.drop 1 else r0)
        ybeginBytes = true →
      ((info_yenczlib step s0 (r0 :: rest) = .missingTrailer ↔
        (info_plain rest).1.all
          (fun l => !startsWithBytes l yendBytes) = true) ∧
       (∀ t, lastYend (info_plain rest).1 [] = t → t ≠ [] →
        (info_yenczlib step s0 (r0 :: rest) = .badTrailer ↔
          trailer_crc32 t = none)) ∧
       (∀ t c, lastYend (info_plain rest).1 [] = t →
        trailer_crc32 t = some c →
        (info_yenczlib step s0 (r0 :: rest) = .badCRC ↔
          c ≠ ((YEnc.decodeMany YEncState.init
            ((info_plain rest).1.filter
              (fun l => !startsWithBytes l yendBytes))).1).crc32)))) := by
  obtain ⟨s', fifo', out', hloop⟩ :=
    yz_loop_spec step hstep (info_plain rest).1 s0 YEncState.init [] [] []
  have e1 : info_yenczlib step s0 (r0 :: rest) =
      (if ¬ startsWithBytes (if startsWithDot r0 then r0.drop 1 else r0)
          ybeginBytes then YZResult.badHeader
       else
        match yz_loop step (info_plain rest).1 s0 YEncState.init [] [] [] with
        | none => YZResult.decompFailed
        | some (_, d, t, _, out) =>
          if ¬ (info_plain rest).2 then YZResult.socketErr
          else if t = [] then YZResult.missingTrailer
          else
            match trailer_crc32 t with
            | none => YZResult.badTrailer
            | some c =>
              if c ≠ d.crc32 then YZResult.badCRC else YZResult.ok out) := by
    show (if r0 = dotCRLF then YZResult.runtimeErr
          else if ¬ startsWithBytes (if startsWithDot r0 then r0.drop 1 else r0)
              ybeginBytes then YZResult.badHeader
          else
            match yz_loop step (info_plain rest).1 s0 YEncState.init [] [] [] with
            | none => YZResult.decompFailed
            | some (_, d, t, _, out) =>
              if ¬ (info_plain rest).2 then YZResult.socketErr
              else if t = [] then YZResult.missingTrailer
              else
                match trailer_crc32 t with
                | none => YZResult.badTrailer
                | some c =>
                  if c ≠ d.crc32 then YZResult.badCRC
                  else YZResult.ok out) = _
    rw [if_neg hr0]
  by_cases hhd : startsWithBytes (if startsWithDot r0 then r0.drop 1 else r0)
      ybeginBytes = true
  · have hfin : info_yenczlib step s0 (r0 :: rest) =
        (if lastYend (info_plain rest).1 [] = [] then YZResult.missingTrailer
         else
          match trailer_crc32 (lastYend (info_plain rest).1 []) with
          | none => YZResult.badTrailer
          | some c =>
            if c ≠ ((YEnc.decodeMany YEncState.init
                ((info_plain rest).1.filter
                  (fun l => !startsWithBytes l yendBytes))).1).crc32
            then YZResult.badCRC else YZResult.ok out') := by
      rw [e1, if_neg (fun h => h hhd), hloop]
      show (if ¬ (info_plain rest).2 then YZResult.socketErr
            else if lastYend (info_plain rest).1 [] = [] then
              YZResult.missingTrailer
            else
              match trailer_crc32 (lastYend (info_plain rest).1 []) with
              | none => YZResult.badTrailer
              | some c =>
                if c ≠ ((YEnc.decodeMany YEncState.init
                    ((info_plain rest).1.filter
                      (fun l => !startsWithBytes l yendBytes))).1).crc32
                then YZResult.badCRC else YZResult.ok out') = _
      rw [if_neg (by simp [hterm])]
    have hne1 : info_yenczlib step s0 (r0 :: rest) ≠ YZResult.badHeader := by
      rw [hfin]
      split
      · simp
      · split
        · simp
        · split <;> simp
    refine ⟨?_, fun _ => ⟨?_, ?_, ?_⟩⟩
    · refine ⟨fun h => absurd h hne1, fun h => ?_⟩
      rw [hhd] at h
      exact Bool.noConfusion h
    · rw [hfin]
      by_cases ht : lastYend (info_plain rest).1 [] = []
      · rw [if_pos ht]
        have hall := ((lastYend_eq_nil_iff (info_plain rest).1 []).mp ht).2
        exact iff_of_true rfl hall
      · rw [if_neg ht]
        have hall : ¬ ((info_plain rest).1.all
            (fun l => !startsWithBytes l yendBytes) = true) := by
          intro hall
          exact ht ((lastYend_eq_nil_iff _ []).mpr ⟨rfl, hall⟩)
        refine iff_of_false ?_ hall
        split
        · simp
        · split <;> simp
    · intro t htEq htNe
      subst htEq
      rw [hfin, if_neg htNe]
      cases hc : trailer_crc32 (lastYend (info_plain rest).1 []) with
      | none => simp
      | some c =>
        refine iff_of_false ?_ (by simp)
        show ¬ (if c ≠ ((YEnc.decodeMany YEncState.init
            ((info_plain rest).1.filter
              (fun l => !startsWithBytes l yendBytes))).1).crc32
          then YZResult.badCRC else YZResult.ok out') = YZResult.badTrailer
        split <;> simp
    · intro t c htEq hc
      subst htEq
      have htNe : lastYend (info_plain rest).1 [] ≠ [] := by
        intro h
        rw [h] at hc
        exact Option.noConfusion hc
      rw [hfin, if_neg htNe, hc]
      show ((if c ≠ ((YEnc.decodeMany YEncState.init
          ((info_plain rest).1.filter
            (fun l => !startsWithBytes l yendBytes))).1).crc32
        then YZResult.badCRC else YZResult.ok out') = YZResult.badCRC) ↔ _
      by_cases hcc : c ≠ ((YEnc.decodeMany YEncState.init
          ((info_plain rest).1.filter
            (fun l => !startsWithBytes l yendBytes))).1).crc32
      · rw [if_pos hcc]
        exact iff_of_true rfl hcc
      · rw [if_neg hcc]
        exact iff_of_false (by simp) hcc
  · have hbad : info_yenczlib step s0 (r0 :: rest) = YZResult.badHeader := by
      rw [e1, if_pos (by simpa using hhd)]
    refine ⟨?_, fun h => absurd h hhd⟩
    refine iff_of_true hbad ?_
    simpa using hhd

/-- Witness for C6 (bad-header case) with the identity inflate. -/
theorem info_yenczlib_error_conditions_witness :
    info_yenczlib (fun (s : Unit) (d : Bytes) => some (s, d)) ()
      [[120, 13, 10], [46, 13, 10]] = .badHeader :=
  (info_yenczlib_error_conditions
      (fun (s : Unit) (d : Bytes) => some (s, d)) ()
      [120, 13, 10] [[46, 13, 10]]
      (fun _ _ => by simp) (by decide) (by decide)).1.mpr (by decide)

/-- One-step unfolding of `command` on a nonempty script with the sync
flag clear. -/
theorem commandF_cons (u p : PyStr) (f : Nat) (r : Bytes) (s : List Bytes)
    (verb : PyStr) (args : Option PyStr) :
    commandF u p (f + 1) false (r :: s) verb args =
      (match status r with
       | .idxErr => (CmdResult.idxRaise, s, [cmdLine verb args])
       | .protoErr => (CmdResult.protoRaise, s, [cmdLine verb args])
       | .permErr c m => (CmdResult.permRaise c m, s, [cmdLine verb args])
       | .ok c m => (CmdResult.ok c m, s, [cmdLine verb args])
       | .tempErr c m =>
         if c ≠ 480 then (CmdResult.tempRaise c m, s, [cmdLine verb args])
         else
           match commandF u p f false s authUserVerb (some u) with
           | (CmdResult.ok c1 m1, s1, w1) =>
             if c1 = 381 then
               match commandF u p f false s1 authPassVerb (some p) with
               | (CmdResult.ok c2 m2, s2, w2) =>
                 if c2 ≠ 281 then
                   (CmdResult.replyRaise c2 m2, s2,
                     cmdLine verb args :: (w1 ++ w2))
                 else
                   (let r3 := commandF u p f false s2 verb args
                    (r3.1, r3.2.1,
                      cmdLine verb args :: (w1 ++ w2 ++ r3.2.2)))
               | (e2, s2, w2) => (e2, s2, cmdLine verb args :: (w1 ++ w2))
             else if c1 ≠ 281 then
               (CmdResult.replyRaise c1 m1, s1, cmdLine verb args :: w1)
             else
               (let r3 := commandF u p f false s1 verb args
                (r3.1, r3.2.1, cmdLine verb args :: (w1 ++ r3.2.2)))
           | (e1, s1, w1) => (e1, s1, cmdLine verb args :: w1)) := rfl

theorem commandF_ok (u p : PyStr) (f : Nat) {r : Bytes} (s : List Bytes)
    (verb : PyStr) (args : Option PyStr) {c : Int} {m : Bytes}
    (hst : status r = .ok c m) :
    commandF u p (f + 1) false (r :: s) verb args =
      (.ok c m, s, [cmdLine verb args]) := by
  rw [commandF_cons, hst]

theorem commandF_temp_ne (u p : PyStr) (f : Nat) {r : Bytes} (s : List Bytes)
    (verb : PyStr) (args : Option PyStr) {c : Int} {m : Bytes}
    (hst : status r = .tempErr c m) (hne : c ≠ 480) :
    commandF u p (f + 1) false (r :: s) verb args =
      (.tempRaise c m, s, [cmdLine verb args]) := by
  rw [commandF_cons, hst]
  show (if c ≠ 480 then (CmdResult.tempRaise c m, s, [cmdLine verb args])
        else _) = _
  rw [if_pos hne]

theorem commandF_perm (u p : PyStr) (f : Nat) {r : Bytes} (s : List Bytes)
    (verb : PyStr) (args : Option PyStr) {c : Int} {m : Bytes}
    (hst : status r = .permErr c m) :
    commandF u p (f + 1) false (r :: s) verb args =
      (.permRaise c m, s, [cmdLine verb args]) := by
  rw [commandF_cons, hst]

/-- On a 480, `command` defers entirely to the authentication machinery. -/
theorem commandF_480 (u p : PyStr) (f : Nat) {r : Bytes} (s : List Bytes)
    (verb : PyStr) (args : Option PyStr) {m : Bytes}
    (hst : status r = .tempErr 480 m) :
    commandF u p (f + 1) false (r :: s) verb args =
      (match commandF u p f false s authUserVerb (some u) with
       | (CmdResult.ok c1 m1, s1, w1) =>
         if c1 = 381 then
           match commandF u p f false s1 authPassVerb (some p) with
           | (CmdResult.ok c2 m2, s2, w2) =>
             if c2 ≠ 281 then
               (CmdResult.replyRaise c2 m2, s2,
                 cmdLine verb args :: (w1 ++ w2))
             else
               (let r3 := commandF u p f false s2 verb args
                (r3.1, r3.2.1, cmdLine verb args :: (w1 ++ w2 ++ r3.2.2)))
           | (e2, s2, w2) => (e2, s2, cmdLine verb args :: (w1 ++ w2))
         else if c1 ≠ 281 then
           (CmdResult.replyRaise c1 m1, s1, cmdLine verb args :: w1)
         else
           (let r3 := commandF u p f false s1 verb args
            (r3.1, r3.2.1, cmdLine verb args :: (w1 ++ r3.2.2)))
       | (e1, s1, w1) => (e1, s1, cmdLine verb args :: w1)) := by
  rw [commandF_cons, hst]
  show (if (480 : Int) ≠ 480 then (CmdResult.tempRaise 480 m, s,
          [cmdLine verb args]) else _) = _
  rw [if_neg (by simp)]

/--
**C5** (counterexample). After a 480, when `AUTHINFO USER` is answered
with `481 nope` (the typical rejected-credentials code), the caller sees
`NNTPTemporaryError(481)` — the nested `command`'s `status()` raises it
before the `!= 281` check — not the `ReplyError(code, message)` the claim
promises for every non-281 final authentication code.
-/
theorem auth_4xx_propagates_not_replyerror :
    (commandF "u".toList "p".toList 3 false
        [[52, 56, 48, 32, 97, 117, 116, 104, 13, 10],
         [52, 56, 49, 32, 110, 111, 112, 101, 13, 10]]
        "HELP".toList none).1 =
      .tempRaise 481 [110, 111, 112, 101] ∧
    CmdResult.tempRaise 481 [110, 111, 112, 101] ≠
      CmdResult.replyRaise 481 [110, 111, 112, 101] :=
  ⟨by decide, by decide⟩

/--
**C5** (amended). For every command exchange with the sync flag clear:
a non-480 reply is returned (1xx-3xx) or raised (4xx/5xx) after exactly
one write, so authentication is never performed before a 480. On a 480,
`AUTHINFO USER` is sent; a 381 reply leads to `AUTHINFO PASS`; a final
authentication code of 281 (from USER or PASS) triggers exactly one retry
of the original command whose outcome the caller observes; any other
1xx/2xx/3xx final authentication code raises `ReplyError(code, message)`;
but — amending the claim — a 4xx (other than 480, which recurses) or 5xx
reply to AUTHINFO propagates as `TemporaryError`/`PermanentError` from
`status()`, not as `ReplyError`.
-/
theorem command_auth_amended :
    (∀ (u p : PyStr) (f : Nat) (r : Bytes) (s : List Bytes) (verb : PyStr)
        (args : Option PyStr) (c : Int) (m : Bytes),
      status r = .ok c m →
      commandF u p (f + 1) false (r :: s) verb args =
        (.ok c m, s, [cmdLine verb args])) ∧
    (∀ (u p : PyStr) (f : Nat) (r : Bytes) (s : List Bytes) (verb : PyStr)
        (args : Option PyStr) (c : Int) (m : Bytes),
      status r = .tempErr c m → c ≠ 480 →
      commandF u p (f + 1) false (r :: s) verb args =
        (.tempRaise c m, s, [cmdLine verb args])) ∧
    (∀ (u p : PyStr) (f : Nat) (r : Bytes) (s : List Bytes) (verb : PyStr)
        (args : Option PyStr) (c : Int) (m : Bytes),
      status r = .permErr c m →
      commandF u p (f + 1) false (r :: s) verb args =
        (.permRaise c m, s, [cmdLine verb args])) ∧
    (∀ (u p : PyStr) (f : Nat) (r0 r1 r2 : Bytes) (s : List Bytes)
        (verb : PyStr) (args : Option PyStr) (m0 m1 m2 : Bytes),
      status r0 = .tempErr 480 m0 → status r1 = .ok 381 m1 →
      status r2 = .ok 281 m2 →
      commandF u p (f + 1 + 1 + 1) false (r0 :: r1 :: r2 :: s) verb args =
        ((commandF u p (f + 1 + 1) false s verb args).1,
         (commandF u p (f + 1 + 1) false s verb args).2.1,
         cmdLine verb args :: cmdLine authUserVerb (some u) ::
           cmdLine authPassVerb (some p) ::
           (commandF u p (f + 1 + 1) false s verb args).2.2)) ∧
    (∀ (u p : PyStr) (f : Nat) (r0 r1 : Bytes) (s : List Bytes)
        (verb : PyStr) (args : Option PyStr) (m0 m1 : Bytes),
      status r0 = .tempErr 480 m0 → status r1 = .ok 281 m1 →
      commandF u p (f + 1 + 1) false (r0 :: r1 :: s) verb args =
        ((commandF u p (f + 1) false s verb args).1,
         (commandF u p (f + 1) false s verb args).2.1,
         cmdLine verb args :: cmdLine authUserVerb (some u) ::
           (commandF u p (f + 1) false s verb args).2.2)) ∧
    (∀ (u p : PyStr) (f : Nat) (r0 r1 : Bytes) (s : List Bytes)
        (verb : PyStr) (args : Option PyStr) (m0 : Bytes) (c1 : Int)
        (m1 : Bytes),
      status r0 = .tempErr 480 m0 → status r1 = .ok c1 m1 →
      c1 ≠ 381 → c1 ≠ 281 →
      commandF u p (f + 1 + 1) false (r0 :: r1 :: s) verb args =
        (.replyRaise c1 m1, s,
          [cmdLine verb args, cmdLine authUserVerb (some u)])) ∧
    (∀ (u p : PyStr) (f : Nat) (r0 r1 r2 : Bytes) (s : List Bytes)
        (verb : PyStr) (args : Option PyStr) (m0 m1 : Bytes) (c2 : Int)
        (m2 : Bytes),
      status r0 = .tempErr 480 m0 → status r1 = .ok 381 m1 →
      status r2 = .ok c2 m2 → c2 ≠ 281 →
      commandF u p (f + 1 + 1 + 1) false (r0 :: r1 :: r2 :: s) verb args =
        (.replyRaise c2 m2, s,
          [cmdLine verb args, cmdLine authUserVerb (some u),
           cmdLine authPassVerb (some p)])) ∧
    (∀ (u p : PyStr) (f : Nat) (r0 r1 : Bytes) (s : List Bytes)
        (verb : PyStr) (args : Option PyStr) (m0 : Bytes) (c1 : Int)
        (m1 : Bytes),
      status r0 = .tempErr 480 m0 → status r1 = .tempErr c1 m1 → c1 ≠ 480 →
      commandF u p (f + 1 + 1) false (r0 :: r1 :: s) verb args =
        (.tempRaise c1 m1, s,
          [cmdLine verb args, cmdLine authUserVerb (some u)])) ∧
    (∀ (u p : PyStr) (f : Nat) (r0 r1 : Bytes) (s : List Bytes)
        (verb : PyStr) (args : Option PyStr) (m0 : Bytes) (c1 : Int)
        (m1 : Bytes),
      status r0 = .tempErr 480 m0 → status r1 = .permErr c1 m1 →
      commandF u p (f + 1 + 1) false (r0 :: r1 :: s) verb args =
        (.permRaise c1 m1, s,
          [cmdLine verb args, cmdLine authUserVerb (some u)])) ∧
    (∀ (u p : PyStr) (f : Nat) (r0 r1 r2 : Bytes) (s : List Bytes)
        (verb : PyStr) (args : Option PyStr) (m0 m1 : Bytes) (c2 : Int)
        (m2 : Bytes),
      status r0 = .tempErr 480 m0 → status r1 = .ok 381 m1 →
      status r2 = .tempErr c2 m2 → c2 ≠ 480 →
      commandF u p (f + 1 + 1 + 1) false (r0 :: r1 :: r2 :: s) verb args =
        (.tempRaise c2 m2, s,
          [cmdLine verb args, cmdLine authUserVerb (some u),
           cmdLine authPassVerb (some p)])) := by
  refine ⟨?_, ?_, ?_, ?_, ?_, ?_, ?_, ?_, ?_, ?_⟩
  · intro u p f r s verb args c m h
    exact commandF_ok u p f s verb args h
  · intro u p f r s verb args c m h hne
    exact commandF_temp_ne u p f s verb args h hne
  · intro u p f r s verb args c m h
    exact commandF_perm u p f s verb args h
  · intro u p f r0 r1 r2 s verb args m0 m1 m2 h0 h1 h2
    rw [commandF_480 u p (f + 1 + 1) (r1 :: r2 :: s) verb args h0,
      commandF_ok u p (f + 1) (r2 :: s) authUserVerb (some u) h1]
    simp only [commandF_ok u p (f + 1) s authPassVerb (some p) h2]
    simp
  · intro u p f r0 r1 s verb args m0 m1 h0 h1
    rw [commandF_480 u p (f + 1) (r1 :: s) verb args h0,
      commandF_ok u p f s authUserVerb (some u) h1]
    simp
  · intro u p f r0 r1 s verb args m0 c1 m1 h0 h1 h381 h281
    rw [commandF_480 u p (f + 1) (r1 :: s) verb args h0,
      commandF_ok u p f s authUserVerb (some u) h1]
    simp [h381, h281]
  · intro u p f r0 r1 r2 s verb args m0 m1 c2 m2 h0 h1 h2 h281
    rw [commandF_480 u p (f + 1 + 1) (r1 :: r2 :: s) verb args h0,
      commandF_ok u p (f + 1) (r2 :: s) authUserVerb (some u) h1]
    simp only [commandF_ok u p (f + 1) s authPassVerb (some p) h2]
    simp [h281]
  · intro u p f r0 r1 s verb args m0 c1 m1 h0 h1 hne
    rw [commandF_480 u p (f + 1) (r1 :: s) verb args h0,
      commandF_temp_ne u p f s authUserVerb (some u) h1 hne]
  · intro u p f r0 r1 s verb args m0 c1 m1 h0 h1
    rw [commandF_480 u p (f + 1) (r1 :: s) verb args h0,
      commandF_perm u p f s authUserVerb (some u) h1]
  · intro u p f r0 r1 r2 s verb args m0 m1 c2 m2 h0 h1 h2 hne
    rw [commandF_480 u p (f + 1 + 1) (r1 :: r2 :: s) verb args h0,
      commandF_ok u p (f + 1) (r2 :: s) authUserVerb (some u) h1]
    simp only [commandF_temp_ne u p (f + 1) s authPassVerb (some p) h2 hne]
    simp

/-- Witness for the amended C5: the full 480 → USER 381 → PASS 281 →
retry → 200 exchange. -/
theorem command_auth_amended_witness :
    status [52, 56, 48, 13, 10] = .tempErr 480 [] ∧
    status [51, 56, 49, 13, 10] = .ok 381 [] ∧
    status [50, 56, 49, 13, 10] = .ok 281 [] ∧
    commandF "u".toList "p".toList (0 + 1 + 1 + 1) false
      [[52, 56, 48, 13, 10], [51, 56, 49, 13, 10], [50, 56, 49, 13, 10],
       [50, 48, 48, 13, 10]] "HELP".toList none =
      ((commandF "u".toList "p".toList (0 + 1 + 1) false
          [[50, 48, 48, 13, 10]] "HELP".toList none).1,
       (commandF "u".toList "p".toList (0 + 1 + 1) false
          [[50, 48, 48, 13, 10]] "HELP".toList none).2.1,
       cmdLine "HELP".toList none ::
         cmdLine authUserVerb (some "u".toList) ::
         cmdLine authPassVerb (some "p".toList) ::
         (commandF "u".toList "p".toList (0 + 1 + 1) false
            [[50, 48, 48, 13, 10]] "HELP".toList none).2.2) :=
  ⟨by decide, by decide, by decide,
    command_auth_amended.2.2.2.1 "u".toList "p".toList 0
      [52, 56, 48, 13, 10] [51, 56, 49, 13, 10] [50, 56, 49, 13, 10]
      [[50, 48, 48, 13, 10]] "HELP".toList none [] [] []
      (by decide) (by decide) (by decide)⟩

/-- Unfolding of `readerNext` on an unfinished generator. -/
theorem readerNext_eq (g : Bool) (r : PlainReader) (hdone : r.done = false) :
    readerNext g r =
      (match r.pending with
       | some l => ((if r.started then g else true),
           { r with pending := none, started := true }, some l)
       | none =>
         match r.remaining with
         | [] => ((if r.started then g else true),
             { r with started := true }, none)
         | l :: ls =>
           if l = dotCRLF then
             (false,
               { r with remaining := ls, started := true, done := true },
               none)
           else if startsWithDot l then
             ((if r.started then g else true),
               { r with pending := some l, remaining := ls, started := true },
               some (l.drop 1))
           else ((if r.started then g else true),
             { r with remaining := ls, started := true }, some l)) := by
  unfold readerNext
  rw [if_neg (by simp [hdone])]

/-- In every reachable connection state the `_generating` flag equals
"a lazy reader is outstanding". -/
theorem Reach_invariant :
    ∀ c : Conn, Reach c → c.generating = readerOutstanding c.reader := by
  intro c hc
  induction hc with
  | init => rfl
  | newReader c lines hr hout ih =>
    show c.generating = readerOutstanding (some ⟨none, lines, false, false⟩)
    rw [ih, hout]
    rfl
  | advance c r hr hcr hdone hdata ih =>
    have hg : c.generating = r.started := by
      rw [ih, hcr]
      show (r.started && !r.done) = r.started
      rw [hdone]
      simp
    have hg1 : (if r.started then c.generating else true) = true := by
      by_cases hs : r.started
      · rw [if_pos hs, hg, hs]
      · rw [if_neg hs]
    show (readerNext c.generating r).1 =
      readerOutstanding (some (readerNext c.generating r).2.1)
    rw [readerNext_eq c.generating r hdone]
    cases hp : r.pending with
    | some l => simp [readerOutstanding, hg1, hdone]
    | none =>
      cases hrem : r.remaining with
      | nil =>
        rcases hdata with h | h
        · exact absurd hp h
        · exact absurd hrem h
      | cons l ls =>
        by_cases hsent : l = dotCRLF
        · simp [hsent, readerOutstanding]
        · by_cases hdot : startsWithDot l
          · simp [hsent, hdot, readerOutstanding, hg1, hdone]
          · simp [hsent, hdot, readerOutstanding, hg1, hdone]
  | cmd c c' verb args hr hcmd ih =>
    unfold commandAttempt at hcmd
    by_cases hgen : c.generating
    · rw [if_pos hgen] at hcmd
      exact Option.noConfusion hcmd
    · rw [if_neg hgen] at hcmd
      have h' : ({ c with writes := c.writes ++ [cmdLine verb args] } : Conn)
          = c' := by
        injection hcmd
      rw [← h']
      exact ih

/--
**C7.** In every reachable connection state the `_generating` flag is true
iff a lazy response reader is outstanding (it is set before the first line
is produced and cleared on natural termination at the sentinel); calling
`command()` while the flag is set raises `SyncError` and writes nothing;
once the reader is fully consumed, `command()` writes its line and
succeeds again.
-/
theorem generating_flag_sync_discipline :
    (∀ c : Conn, Reach c →
      (c.generating = true ↔ readerOutstanding c.reader = true)) ∧
    (∀ (c : Conn) (verb : PyStr) (args : Option PyStr), Reach c →
      readerOutstanding c.reader = true →
      commandAttempt c verb args = none) ∧
    (∀ (c : Conn) (verb : PyStr) (args : Option PyStr), Reach c →
      readerOutstanding c.reader = false →
      commandAttempt c verb args =
        some { c with writes := c.writes ++ [cmdLine verb args] }) ∧
    (∀ (g : Bool) (r : PlainReader), r.started = false →
      (readerNext g r).2.2 ≠ none → (readerNext g r).1 = true) ∧
    (∀ (g : Bool) (r : PlainReader), r.done = false →
      ((readerNext g r).2.1).done = true → (readerNext g r).1 = false) := by
  have hstart : ∀ (g : Bool) (r : PlainReader), r.started = false →
      (readerNext g r).2.2 ≠ none → (readerNext g r).1 = true := by
    intro g r hs hy
    obtain ⟨pending, remaining, started, done⟩ := r
    replace hs : started = false := hs
    subst hs
    cases done with
    | true => simp [readerNext] at hy
    | false =>
      cases pending with
      | some l => simp [readerNext]
      | none =>
        cases remaining with
        | nil => simp [readerNext] at hy
        | cons l ls =>
          by_cases hsent : l = dotCRLF
          · simp [readerNext, hsent] at hy
          · by_cases hdot : startsWithDot l
            · simp [readerNext, hsent, hdot]
            · simp [readerNext, hsent, hdot]
  have hclear : ∀ (g : Bool) (r : PlainReader), r.done = false →
      ((readerNext g r).2.1).done = true → (readerNext g r).1 = false := by
    intro g r hdone hfin
    obtain ⟨pending, remaining, started, done⟩ := r
    replace hdone : done = false := hdone
    subst hdone
    cases pending with
    | some l => simp [readerNext] at hfin
    | none =>
      cases remaining with
      | nil => simp [readerNext] at hfin
      | cons l ls =>
        by_cases hsent : l = dotCRLF
        · simp [readerNext, hsent]
        · by_cases hdot : startsWithDot l
          · simp [readerNext, hsent, hdot] at hfin
          · simp [readerNext, hsent, hdot] at hfin
  refine ⟨?_, ?_, ?_, hstart, hclear⟩
  · intro c hc
    rw [Reach_invariant c hc]
  · intro c verb args hc hout
    unfold commandAttempt
    rw [if_pos (by rw [Reach_invariant c hc]; exact hout)]
  · intro c verb args hc hout
    unfold commandAttempt
    rw [if_neg (by rw [Reach_invariant c hc, hout]; simp)]

/--
Witness for C7: reading `a\r\n` then the sentinel; the flag is set while
the line is pending consumption (command refused) and cleared at the
sentinel (command accepted again).
-/
theorem generating_flag_sync_discipline_witness :
    commandAttempt ⟨true, some ⟨none, [[46, 13, 10]], true, false⟩, []⟩
        "HELP".toList none = none ∧
    commandAttempt ⟨false, some ⟨none, [], true, true⟩, []⟩
        "HELP".toList none =
      some ⟨false, some ⟨none, [], true, true⟩, [cmdLine "HELP".toList none]⟩ := by
  have h1 : Reach ⟨true, some ⟨none, [[46, 13, 10]], true, false⟩, []⟩ :=
    Reach.advance ⟨false, some ⟨none, [[97, 13, 10], [46, 13, 10]],
        false, false⟩, []⟩
      ⟨none, [[97, 13, 10], [46, 13, 10]], false, false⟩
      (Reach.newReader Conn.init [[97, 13, 10], [46, 13, 10]]
        Reach.init rfl)
      rfl rfl (Or.inr (by decide))
  have h2 : Reach ⟨false, some ⟨none, [], true, true⟩, []⟩ :=
    Reach.advance ⟨true, some ⟨none, [[46, 13, 10]], true, false⟩, []⟩
      ⟨none, [[46, 13, 10]], true, false⟩ h1 rfl rfl (Or.inr (by decide))
  exact ⟨generating_flag_sync_discipline.2.1 _ "HELP".toList none h1
      (by decide),
    generating_flag_sync_discipline.2.2.1 _ "HELP".toList none h2
      (by decide)⟩

end Pynntp
